import Mathlib

/-!
Verification development for the `toc-markdown` repository.

This file gives a shallow embedding of the core of the package
(`toc_markdown/parser.py`, `toc_markdown/slugify.py`,
`toc_markdown/generator.py`, `toc_markdown/config.py`,
`toc_markdown/models.py`, `toc_markdown/constants.py`) and proves, or
refutes, the specification claims about it.

Conventions of the embedding:

* Python strings are Lean `String`s; character positions are indices into
  `String.data` (a `List Char`), matching Python's code-point indexing.
* A parsed document is a `List String`, one element per line with its
  original line terminator kept, exactly the value of
  `content.splitlines(keepends=True)` that `parse_markdown` computes from
  the raw text and stores in `ParseResult.full_file`.
* Python `while` loops over a position that strictly increases are
  translated to fuel recursion, with fuel at least `length + 1` so the
  fallback branch is unreachable for the actual calls.
* Python's exceptions are `Except`; raising aborts the computation and no
  partial result is produced, exactly as in the source.
* The ASCII-relevant fragment of Python's whitespace and punctuation
  classes is modelled explicitly (`isPyWhitespace`, `isAsciiPunctuation`);
  `unicodedata.normalize` is modelled on the code points this development
  evaluates (see `nfkdChar`, `pyNFKC`).
-/

set_option maxRecDepth 4000

namespace TocMd

/-- The backtick character (written via its code point so that the source
stays free of backtick characters outside strings). -/
def backtick : Char := Char.ofNat 96

/-- ASCII fragment of Python's whitespace class (used by `str.strip()`,
`str.isspace()` and the regex class `\s`): space, tab, newline, carriage
return, vertical tab, form feed. -/
def isPyWhitespace (c : Char) : Bool :=
  c = ' ' ∨ c = '\t' ∨ c = '\n' ∨ c = '\r' ∨ c = '\x0b' ∨ c = '\x0c'

/-- The character set of Python's `lstrip(" \t")` and of the regex class
`[ \t]`: a space or a tab. -/
def isSpaceOrTab (c : Char) : Bool :=
  c = ' ' ∨ c = '\t'

/-- Python's `line.startswith(prefixStr)` on the underlying character
lists. -/
def listStartsWith : List Char → List Char → Bool
  | _, [] => true
  | [], _ :: _ => false
  | a :: as, b :: bs => a = b && listStartsWith as bs

/-- Python's `s.startswith(p)`. -/
def strStartsWith (s p : String) : Bool :=
  listStartsWith s.data p.data

/-- Helper for `leading_whitespace_columns`: walk the characters keeping a
column counter; a tab advances to the next multiple of four. -/
def lwcGo : List Char → Nat → Nat
  | [], cols => cols
  | c :: rest, cols =>
    if c = ' ' then lwcGo rest (cols + 1)
    else if c = '\t' then lwcGo rest (cols + (4 - cols % 4))
    else cols

/-- Embeds `_leading_whitespace_columns` from parser.py: the column width
of the leading run of spaces/tabs, tabs advancing to the next multiple of
four columns. -/
def leading_whitespace_columns (line : String) : Nat :=
  lwcGo line.data 0

/-- Embeds `CLOSING_FENCE_MAX_INDENT` from constants.py. -/
def CLOSING_FENCE_MAX_INDENT : Nat := 3

/-- Embeds `ParserState` from models.py. -/
inductive ParserState where
  | NORMAL
  | IN_TOC
  | IN_FENCED_CODE
  | IN_INDENTED_CODE
deriving DecidableEq, Repr

/-- Embeds `ParserContext` from models.py. -/
structure ParserContext where
  state : ParserState := ParserState.NORMAL
  fence_char : Option Char := none
  fence_length : Nat := 0
  fence_indent_columns : Nat := 0
deriving DecidableEq, Repr

/-- Embeds the match of `CODE_FENCE_PATTERN` from constants.py, the regex
`^(?P<indent>\s{0,3})(?P<fence>X{3,}|Y{3,})(?P<info>.*)$` where X is a
backtick and Y a tilde.  Returns the indent group, the fence character and
the fence run length when the regex matches.  Because `.` does not match a
newline and `$` matches only at the end or before a final newline, the
text after the fence run may contain a newline only as its last
character; whitespace characters can never begin the fence run, so the
greedy `\s{0,3}` forces the whole leading whitespace run to have at most
three characters. -/
def fence_pattern_match (line : String) : Option (String × Char × Nat) :=
  let cs := line.data
  let ws := cs.takeWhile isPyWhitespace
  if ws.length ≤ 3 then
    match cs.drop ws.length with
    | [] => none
    | c :: _ =>
      if c = backtick ∨ c = '~' then
        let run := ((cs.drop ws.length).takeWhile (fun d => d = c)).length
        if 3 ≤ run then
          let rest := cs.drop (ws.length + run)
          let info := if rest.getLast? = some '\n' then rest.dropLast else rest
          if info.any (fun d => d = '\n') then none
          else some (String.mk ws, c, run)
        else none
      else none
  else none

/-- Embeds `_try_open_fence` from parser.py: in `NORMAL` state, a line
matching the fence pattern whose indent is at most
`CLOSING_FENCE_MAX_INDENT` columns opens a fenced code block, recording
the fence character, run length and indent columns.  Returns the updated
context on success. -/
def try_open_fence (ctx : ParserContext) (line : String) : Option ParserContext :=
  if ctx.state = ParserState.NORMAL then
    match fence_pattern_match line with
    | none => none
    | some (indent, c, run) =>
      let cols := leading_whitespace_columns indent
      if CLOSING_FENCE_MAX_INDENT < cols then none
      else some { ctx with
        state := ParserState.IN_FENCED_CODE
        fence_char := some c
        fence_length := run
        fence_indent_columns := cols }
  else none

/-- Embeds `_try_close_fence` from parser.py: in `IN_FENCED_CODE` state, a
line closes the fence when, after stripping leading spaces/tabs, it starts
with a run of the opening fence character at least as long as the opening
run, only whitespace follows the run, and the line's leading whitespace is
at most `CLOSING_FENCE_MAX_INDENT` columns.  Returns the reset context on
success. -/
def try_close_fence (ctx : ParserContext) (line : String) : Option ParserContext :=
  if ctx.state = ParserState.IN_FENCED_CODE then
    match ctx.fence_char with
    | none => none
    | some fc =>
      let cols := leading_whitespace_columns line
      let stripped := line.data.dropWhile isSpaceOrTab
      match stripped with
      | [] => none
      | c0 :: _ =>
        if c0 = fc then
          let run := (stripped.takeWhile (fun d => d = fc)).length
          if run < ctx.fence_length then none
          else if (stripped.drop run).all isPyWhitespace then
            if CLOSING_FENCE_MAX_INDENT < cols then none
            else some { ctx with
              state := ParserState.NORMAL
              fence_char := none
              fence_length := 0
              fence_indent_columns := 0 }
          else none
        else none
  else none

/-- Embeds `_try_enter_indented_code` from parser.py: in `NORMAL` state a
line indented four or more columns starts an indented code block. -/
def try_enter_indented (ctx : ParserContext) (line : String) : Option ParserContext :=
  if ctx.state = ParserState.NORMAL then
    if 4 ≤ leading_whitespace_columns line then
      some { ctx with state := ParserState.IN_INDENTED_CODE }
    else none
  else none

/-- Embeds the continuation condition of `_try_exit_indented_code` from
parser.py: in `IN_INDENTED_CODE` state the block continues (the line is
consumed as code) when the line is blank or indented four or more
columns; otherwise the state returns to `NORMAL` and the line is
re-processed. -/
def indented_code_continues (line : String) : Bool :=
  line.data.all isPyWhitespace ∨ 4 ≤ leading_whitespace_columns line

/-- Embeds `TocConfig` from config.py with its default values (the numeric
fields are validated to be positive, so `Nat` is adequate). -/
structure TocConfig where
  start_marker : String := "<!-- TOC -->"
  end_marker : String := "<!-- /TOC -->"
  header_text : String := "## Table of Contents"
  min_level : Nat := 2
  max_level : Nat := 3
  indent_chars : String := "    "
  indent_spaces : Option Nat := none
  list_style : String := "1."
  preserve_unicode : Bool := false
  max_file_size : Nat := 10 * 1024 * 1024
  max_line_length : Nat := 10000
  max_headers : Nat := 10000
deriving DecidableEq, Repr

/-- Embeds `normalize_config` from config.py: derive `indent_chars` from
`indent_spaces` when set (failing when it is not positive), and resolve
the `ordered`/`unordered` aliases of `list_style`. -/
def normalize_config (c : TocConfig) : Except String TocConfig :=
  match c.indent_spaces with
  | some k =>
    if k = 0 then Except.error "indent_spaces must be a positive integer"
    else
      let ind := String.mk (List.replicate k ' ')
      let style :=
        if c.list_style = "ordered" then "1."
        else if c.list_style = "unordered" then "-" else c.list_style
      Except.ok { c with indent_chars := ind, list_style := style }
  | none =>
    let style :=
      if c.list_style = "ordered" then "1."
      else if c.list_style = "unordered" then "-" else c.list_style
    Except.ok { c with list_style := style }

/-- Embeds `validate_config` from config.py: normalize, then check the
header-level bounds, non-emptiness of the string fields, the closed set of
list styles and positivity of the numeric limits.  (The `isinstance`
checks of the source are vacuous under the typed embedding.) -/
def validate_config (c : TocConfig) : Except String Unit :=
  match normalize_config c with
  | Except.error e => Except.error e
  | Except.ok c =>
    if c.min_level < 1 then Except.error "min_level must be >= 1"
    else if c.max_level < c.min_level then Except.error "max_level must be >= min_level"
    else if 6 < c.max_level then Except.error "max_level must be <= 6"
    else if c.start_marker = "" then Except.error "start_marker must not be empty"
    else if c.end_marker = "" then Except.error "end_marker must not be empty"
    else if c.header_text = "" then Except.error "header_text must not be empty"
    else if c.indent_chars = "" then Except.error "indent_chars must not be empty"
    else if c.list_style = "1." ∨ c.list_style = "*" ∨ c.list_style = "-" then
      if c.max_file_size = 0 ∨ c.max_line_length = 0 ∨ c.max_headers = 0 then
        Except.error "numeric limits must be positive integers"
      else Except.ok ()
    else Except.error "list_style must be one of the supported styles"

/-- State of the pre-computation pass of `parse_markdown` (parser.py
lines 507-530): the scanner context, the stack of start-marker line
numbers, and the list of validly paired intervals found so far (in pop
order). -/
structure PreState where
  ctx : ParserContext := {}
  toc_stack : List Nat := []
  toc_intervals : List (Nat × Nat) := []
deriving DecidableEq, Repr

/-- One line of the pre-computation pass of `parse_markdown`: track fenced
and indented code exactly as the main pass does, and outside code push a
line starting with the start marker and pop an interval on a line starting
with the end marker.  The stack is modelled head-as-top. -/
def pre_step (cfg : TocConfig) (st : PreState) (n : Nat) (line : String) : PreState :=
  if st.ctx.state = ParserState.IN_FENCED_CODE then
    { st with ctx := (try_close_fence st.ctx line).getD st.ctx }
  else if st.ctx.state = ParserState.IN_INDENTED_CODE ∧ indented_code_continues line then st
  else
    let ctx0 :=
      if st.ctx.state = ParserState.IN_INDENTED_CODE then
        { st.ctx with state := ParserState.NORMAL }
      else st.ctx
    match try_open_fence ctx0 line with
    | some ctx1 => { st with ctx := ctx1 }
    | none =>
      match try_enter_indented ctx0 line with
      | some ctx1 => { st with ctx := ctx1 }
      | none =>
        let stack1 := if strStartsWith line cfg.start_marker then n :: st.toc_stack else st.toc_stack
        if strStartsWith line cfg.end_marker then
          match stack1 with
          | [] => { st with ctx := ctx0, toc_stack := [] }
          | s :: rest =>
            { st with
              ctx := ctx0
              toc_stack := rest
              toc_intervals := st.toc_intervals ++ [(s, n)] }
        else { st with ctx := ctx0, toc_stack := stack1 }

/-- Runs `pre_step` over the lines, numbering them from `n`. -/
def pre_scan (cfg : TocConfig) : PreState → Nat → List String → PreState
  | st, _, [] => st
  | st, n, l :: ls => pre_scan cfg (pre_step cfg st n l) (n + 1) ls

/-- The validly paired TOC intervals of a document, as computed by the
pre-pass of `parse_markdown`; the source turns this list into the dict
`toc_start_to_end`. -/
def toc_start_to_end (cfg : TocConfig) (lines : List String) : List (Nat × Nat) :=
  (pre_scan cfg {} 0 lines).toc_intervals

/-- Lookup in the `toc_start_to_end` dict: as in a Python dict built by
comprehension, a later binding of the same key wins (start keys are in
fact distinct, so this matches an association-list lookup). -/
def lookup_toc_end (m : List (Nat × Nat)) (n : Nat) : Option Nat :=
  (m.reverse.find? (fun p => p.1 = n)).map (fun p => p.2)

/-- Embeds `_try_enter_toc` from parser.py: when the current line number
is a validated TOC start, push its end line and enter `IN_TOC`. -/
def try_enter_toc (ctx : ParserContext) (n : Nat) (m : List (Nat × Nat))
    (stack : List Nat) : Option (ParserContext × List Nat) :=
  match lookup_toc_end m n with
  | none => none
  | some e => some ({ ctx with state := ParserState.IN_TOC }, e :: stack)

/-- Embeds `_try_exit_toc` from parser.py: when the current line number
matches the top of the TOC end stack, pop it; the state returns to
`NORMAL` only when the stack empties. -/
def try_exit_toc (ctx : ParserContext) (n : Nat) (stack : List Nat) :
    Option (ParserContext × List Nat) :=
  match stack with
  | [] => none
  | e :: rest =>
    if n = e then
      some ({ ctx with
        state := if rest = [] then ParserState.NORMAL else ParserState.IN_TOC }, rest)
    else none

/-- Embeds the match of the header pattern compiled in `parse_markdown`
(parser.py line 500), the regex `^(#+) (.*)$` with the hash run bounded by
the configured levels and a literal space after it.  On a match, the
recorded header is `group(0)`: the whole line minus the final newline
consumed by `$`.  A line with an interior newline cannot match. -/
def header_pattern_match (min_level max_level : Nat) (line : String) : Option String :=
  let cs := line.data
  let core := if cs.getLast? = some '\n' then cs.dropLast else cs
  if core.any (fun d => d = '\n') then none
  else
    let h := (core.takeWhile (fun d => d = '#')).length
    if min_level ≤ h ∧ h ≤ max_level ∧ (core.drop h).head? = some ' ' then
      some (String.mk core)
    else none

/-- Embeds the line length computed by `parse_markdown` before the
line-length check (parser.py lines 574-578): the raw length minus a single
trailing newline and, when present before it, a carriage return. -/
def effective_line_length (line : String) : Nat :=
  let cs := line.data
  if cs.getLast? = some '\n' then
    let l := cs.length - 1
    if 0 < l ∧ (cs.take l).getLast? = some '\r' then l - 1 else l
  else cs.length

/-- Errors raised by `parse_markdown` (exceptions.py / config.py). -/
inductive ParseErr where
  | configError (msg : String)
  | lineTooLong (line_number : Nat) (max_line_length : Nat)
  | tooManyHeaders (limit : Nat)
deriving DecidableEq, Repr

/-- State threaded through the main pass of `parse_markdown`. -/
structure ScanState where
  ctx : ParserContext := {}
  toc_end_stack : List Nat := []
  headers : List String := []
  toc_start_line : Option Nat := none
  toc_end_line : Option Nat := none
deriving DecidableEq, Repr

/-- One line of the main pass of `parse_markdown` (parser.py lines
541-604), transcribed branch by branch: fenced code, indented code, the
`IN_TOC` branch, fence opening, indented-code entry, the TOC header-text
skip, the line-length check, the marker branches, header matching with the
header-count limit, and the final marker re-assignments. -/
def main_step (cfg : TocConfig) (maxLen : Nat) (m : List (Nat × Nat))
    (st : ScanState) (n : Nat) (line : String) : Except ParseErr ScanState :=
  if st.ctx.state = ParserState.IN_FENCED_CODE then
    Except.ok { st with ctx := (try_close_fence st.ctx line).getD st.ctx }
  else if st.ctx.state = ParserState.IN_INDENTED_CODE ∧ indented_code_continues line then
    Except.ok st
  else
    let st :=
      if st.ctx.state = ParserState.IN_INDENTED_CODE then
        { st with ctx := { st.ctx with state := ParserState.NORMAL } }
      else st
    if st.ctx.state = ParserState.IN_TOC then
      match try_enter_toc st.ctx n m st.toc_end_stack with
      | some (c1, s1) =>
        Except.ok { st with ctx := c1, toc_end_stack := s1, toc_start_line := some n }
      | none =>
        match try_exit_toc st.ctx n st.toc_end_stack with
        | some (c1, s1) =>
          Except.ok { st with ctx := c1, toc_end_stack := s1, toc_end_line := some n }
        | none => Except.ok st
    else
      match try_open_fence st.ctx line with
      | some ctx1 => Except.ok { st with ctx := ctx1 }
      | none =>
        match try_enter_indented st.ctx line with
        | some ctx1 => Except.ok { st with ctx := ctx1 }
        | none =>
          if strStartsWith line cfg.header_text then Except.ok st
          else if maxLen < effective_line_length line then
            Except.error (ParseErr.lineTooLong (n + 1) maxLen)
          else
            let st :=
              if strStartsWith line cfg.start_marker then
                { st with toc_start_line := some n }
              else st
            match
              (if strStartsWith line cfg.start_marker then
                try_enter_toc st.ctx n m st.toc_end_stack
              else none) with
            | some (c1, s1) => Except.ok { st with ctx := c1, toc_end_stack := s1 }
            | none =>
              if strStartsWith line cfg.end_marker then
                Except.ok { st with toc_end_line := some n }
              else
                match header_pattern_match cfg.min_level cfg.max_level line with
                | some h =>
                  let headers1 := st.headers ++ [h]
                  if cfg.max_headers < headers1.length then
                    Except.error (ParseErr.tooManyHeaders cfg.max_headers)
                  else
                    let st := { st with headers := headers1 }
                    let st :=
                      if strStartsWith line cfg.start_marker then
                        { st with toc_start_line := some n }
                      else st
                    let st :=
                      if strStartsWith line cfg.end_marker then
                        { st with toc_end_line := some n }
                      else st
                    Except.ok st
                | none =>
                  let st :=
                    if strStartsWith line cfg.start_marker then
                      { st with toc_start_line := some n }
                    else st
                  let st :=
                    if strStartsWith line cfg.end_marker then
                      { st with toc_end_line := some n }
                    else st
                  Except.ok st

/-- Runs `main_step` over the lines, numbering them from `n`; an error
aborts the scan. -/
def main_scan (cfg : TocConfig) (maxLen : Nat) (m : List (Nat × Nat)) :
    ScanState → Nat → List String → Except ParseErr ScanState
  | st, _, [] => Except.ok st
  | st, n, l :: ls =>
    match main_step cfg maxLen m st n l with
    | Except.error e => Except.error e
    | Except.ok st1 => main_scan cfg maxLen m st1 (n + 1) ls

/-- Embeds `ParseResult` from models.py. -/
structure ParseResult where
  full_file : List String
  headers : List String
  toc_start_line : Option Nat
  toc_end_line : Option Nat
deriving DecidableEq, Repr

/-- Embeds `parse_markdown` from parser.py, taking the document as its
line list (the value of `content.splitlines(keepends=True)`).  The
optional `max_line_length` overrides the configured limit, as in the
source; configuration is validated first, then the pre-pass computes the
validly paired TOC intervals and the main pass scans the document. -/
def parse_markdown (lines : List String) (max_line_length : Option Nat)
    (cfg : TocConfig) : Except ParseErr ParseResult :=
  match validate_config cfg with
  | Except.error e => Except.error (ParseErr.configError e)
  | Except.ok _ =>
    let maxLen := max_line_length.getD cfg.max_line_length
    let m := toc_start_to_end cfg lines
    match main_scan cfg maxLen m {} 0 lines with
    | Except.error e => Except.error e
    | Except.ok st =>
      Except.ok
        { full_file := lines, headers := st.headers,
          toc_start_line := st.toc_start_line, toc_end_line := st.toc_end_line }

/-- Python's `string.punctuation` (the ASCII punctuation characters,
code points 33-47, 58-64, 91-96 and 123-126). -/
def isAsciiPunctuation (c : Char) : Bool :=
  (33 ≤ c.toNat ∧ c.toNat ≤ 47) ∨ (58 ≤ c.toNat ∧ c.toNat ≤ 64) ∨
    (91 ≤ c.toNat ∧ c.toNat ≤ 96) ∨ (123 ≤ c.toNat ∧ c.toNat ≤ 126)

/-- The punctuation removed by `generate_slug` (slugify.py line 34):
`string.punctuation` without the hyphen and the underscore. -/
def isSlugRemovedPunct (c : Char) : Bool :=
  isAsciiPunctuation c ∧ c ≠ '-' ∧ c ≠ '_'

/-- Model of `unicodedata.normalize("NFKD", ·)` on one character, for the
code points this development evaluates: ASCII characters are
normalization-inert (identity), and U+00E1 ("a" acute) and U+00E9 ("e"
acute) decompose canonically into the base letter followed by the
combining acute accent U+0301.  Other characters are left unchanged. -/
def nfkdChar (c : Char) : List Char :=
  if c = Char.ofNat 0xE1 then ['a', Char.ofNat 0x301]
  else if c = Char.ofNat 0xE9 then ['e', Char.ofNat 0x301]
  else [c]

/-- Model of `unicodedata.normalize("NFKD", ·)` on a string (see
`nfkdChar`). -/
def pyNFKD (s : List Char) : List Char :=
  s.flatMap nfkdChar

/-- Model of `unicodedata.normalize("NFKC", ·)` for the code points this
development evaluates: the pair "a" + U+0301 composes into U+00E1; ASCII
characters and other sequences are left unchanged. -/
def pyNFKC : List Char → List Char
  | [] => []
  | [c] => [c]
  | c :: d :: rest =>
    if c = 'a' ∧ d = Char.ofNat 0x301 then Char.ofNat 0xE1 :: pyNFKC rest
    else c :: pyNFKC (d :: rest)

/-- Model of `str.casefold` on one character: ASCII uppercase letters map
to lowercase; the non-ASCII characters this development evaluates (U+00E1
and U+0301) are already caseless, so other characters are left
unchanged. -/
def pyCasefoldChar (c : Char) : Char :=
  if 65 ≤ c.toNat ∧ c.toNat ≤ 90 then Char.ofNat (c.toNat + 32) else c

/-- Python's `s.encode("ascii", "ignore").decode(...)`: drop every
non-ASCII character. -/
def asciiFilter (s : List Char) : List Char :=
  s.filter (fun c => c.toNat ≤ 127)

/-- Replace every maximal run of characters satisfying `p` by the single
character `r`; the boolean argument records whether the previous character
was inside such a run.  With `p` the whitespace class and `r` a hyphen
this is `re.sub(r"\s+", "-", ·)`; with `p` testing for a hyphen it is
`re.sub(r"-{2,}", "-", ·)` (a run of length one is rewritten to itself). -/
def collapseRuns (p : Char → Bool) (r : Char) : List Char → Bool → List Char
  | [], _ => []
  | c :: rest, inRun =>
    if p c then
      if inRun then collapseRuns p r rest true
      else r :: collapseRuns p r rest true
    else c :: collapseRuns p r rest false

/-- Remove the characters satisfying `p` from both ends of the list
(Python's `str.strip` with an explicit character set). -/
def stripList (p : Char → Bool) (l : List Char) : List Char :=
  ((l.dropWhile p).reverse.dropWhile p).reverse

/-- Embeds `generate_slug` from slugify.py: normalize (NFKC when
preserving unicode, else NFKD followed by the ASCII filter), casefold,
remove punctuation except hyphen/underscore, collapse whitespace runs to
hyphens, collapse hyphen runs, strip hyphens, and fall back to
"untitled" when nothing remains. -/
def generate_slug (title : String) (preserve_unicode : Bool) : String :=
  let normalized := if preserve_unicode then pyNFKC title.data else pyNFKD title.data
  let slug := if preserve_unicode then normalized else asciiFilter normalized
  let slug := slug.map pyCasefoldChar
  let slug := slug.filter (fun c => !(isSlugRemovedPunct c))
  let slug := collapseRuns isPyWhitespace '-' slug false
  let slug := collapseRuns (fun c => c = '-') '-' slug false
  let slug := stripList (fun c => c = '-') slug
  if slug = [] then "untitled" else String.mk slug

/-- Decimal rendering of a natural number (the effect of Python's
`f"{n}"`), with enough fuel to emit every digit. -/
def natToStrAux : Nat → Nat → List Char
  | 0, _ => []
  | fuel + 1, n =>
    if n < 10 then [Char.ofNat (48 + n)]
    else natToStrAux fuel (n / 10) ++ [Char.ofNat (48 + n % 10)]

/-- Decimal rendering of a natural number as a string. -/
def natToStr (n : Nat) : String :=
  String.mk (natToStrAux (n + 1) n)

/-- Reads a decimal digit list back into a number (used only to prove
`natToStr` injective). -/
def digitsToNat (l : List Char) : Nat :=
  l.foldl (fun a c => a * 10 + (c.toNat - 48)) 0

/-- The character of `cs` at position `i` (callers only use positions in
range). -/
def getC (cs : List Char) (i : Nat) : Char :=
  (cs.get? i).getD (Char.ofNat 0)

/-- Embeds `is_escaped` from parser.py: the character at `pos` is escaped
when it is preceded by an odd number of consecutive backslashes. -/
def is_escaped (cs : List Char) (pos : Nat) : Bool :=
  if pos = 0 then false
  else ((cs.take pos).reverse.takeWhile (fun c => c = '\\')).length % 2 = 1

/-- Length of the run of the character `c` in `cs` starting at position
`i`. -/
def countRun (cs : List Char) (i : Nat) (c : Char) : Nat :=
  ((cs.drop i).takeWhile (fun d => d = c)).length

/-- The inner search of `find_inline_code_spans` (parser.py lines 76-90):
from position `i`, look for an unescaped backtick run of exactly `n`
backticks; a run of a different length is content and the search
continues after it.  Returns the position just past the closing run, or
`none` when the input is exhausted. -/
def findCloseRun (cs : List Char) (n : Nat) : Nat → Nat → Option Nat
  | 0, _ => none
  | fuel + 1, i =>
    if i < cs.length then
      if getC cs i = backtick ∧ is_escaped cs i = false then
        let cc := countRun cs i backtick
        if cc = n then some (i + cc)
        else findCloseRun cs n fuel (i + cc)
      else findCloseRun cs n fuel (i + 1)
    else none

/-- The outer loop of `find_inline_code_spans` (parser.py lines 66-94):
at an unescaped backtick, count the opening run and search for a closing
run of the same length; when the search exhausts the input the whole scan
ends. -/
def findSpansGo (cs : List Char) : Nat → Nat → List (Nat × Nat)
  | 0, _ => []
  | fuel + 1, i =>
    if i < cs.length then
      if getC cs i = backtick ∧ is_escaped cs i = false then
        let bc := countRun cs i backtick
        match findCloseRun cs bc (cs.length + 1) (i + bc) with
        | some j => (i, j) :: findSpansGo cs fuel j
        | none => []
      else findSpansGo cs fuel (i + 1)
    else []

/-- Embeds `find_inline_code_spans` from parser.py: the start (inclusive)
and end (exclusive) positions of every CommonMark-style inline code
span. -/
def find_inline_code_spans (text : String) : List (Nat × Nat) :=
  findSpansGo text.data (text.data.length + 1) 0

/-- The placeholder Python builds for protected inline-code span number
`k` (parser.py line 127). -/
def placeholder (k : Nat) : String :=
  "\x00CODE_" ++ natToStr k ++ "\x00"

/-- The span-protection loop of `strip_markdown_links` (parser.py lines
119-132): replace each code span by its placeholder, numbering from `k`,
and collect the protected span texts.  Returns the text with placeholders
and the list of protected texts. -/
def protectSpans (cs : List Char) : List (Nat × Nat) → Nat → Nat → List Char × List (List Char)
  | [], offset, _ => (cs.drop offset, [])
  | (s, e) :: rest, offset, k =>
    let tailRes := protectSpans cs rest e (k + 1)
    ((cs.drop offset).take (s - offset) ++ (placeholder k).data ++ tailRes.1,
      (cs.drop s).take (e - s) :: tailRes.2)

/-- The bracket-matching loop of `strip_markdown_links` (parser.py lines
161-173): from position `j` with the given bracket depth, skip escaped
pairs and track nesting; stops when the depth reaches zero or the input
ends.  Returns the final position and depth. -/
def scanBracketEnd (t : List Char) : Nat → Nat → Nat → Nat × Nat
  | 0, j, d => (j, d)
  | fuel + 1, j, d =>
    if j < t.length ∧ 0 < d then
      if getC t j = '\\' ∧ j + 1 < t.length then scanBracketEnd t fuel (j + 2) d
      else if getC t j = '[' then scanBracketEnd t fuel (j + 1) (d + 1)
      else if getC t j = ']' then scanBracketEnd t fuel (j + 1) (d - 1)
      else scanBracketEnd t fuel (j + 1) d
    else (j, d)

/-- The parenthesis-matching loop of `strip_markdown_links` (parser.py
lines 213-227), same shape as `scanBracketEnd` for round brackets. -/
def scanParenEnd (t : List Char) : Nat → Nat → Nat → Nat × Nat
  | 0, k, d => (k, d)
  | fuel + 1, k, d =>
    if k < t.length ∧ 0 < d then
      if getC t k = '\\' ∧ k + 1 < t.length then scanParenEnd t fuel (k + 2) d
      else if getC t k = '(' then scanParenEnd t fuel (k + 1) (d + 1)
      else if getC t k = ')' then scanParenEnd t fuel (k + 1) (d - 1)
      else scanParenEnd t fuel (k + 1) d
    else (k, d)

/-- A scan to the next occurrence of `stop` that skips escaped pairs
(the angle-bracket URL scan of parser.py lines 188-194 and the
reference-link scan of lines 241-247).  Returns the position of the
stopping character, or the length when the input is exhausted. -/
def scanUntilChar (t : List Char) (stop : Char) : Nat → Nat → Nat
  | 0, k => k
  | fuel + 1, k =>
    if k < t.length ∧ getC t k ≠ stop then
      if getC t k = '\\' ∧ k + 1 < t.length then scanUntilChar t stop fuel (k + 2)
      else scanUntilChar t stop fuel (k + 1)
    else k

/-- The optional-whitespace skip after an angle-bracketed URL (parser.py
lines 198-202): the length of the run of spaces/tabs at position `i`. -/
def countSpaceTabRun (t : List Char) (i : Nat) : Nat :=
  ((t.drop i).takeWhile isSpaceOrTab).length

/-- The image-marker pop of `strip_markdown_links` (parser.py lines
206-207 et al.): when the construct is an image and the last emitted
piece is the bang character, drop it. -/
def popBang (isImage : Bool) (res : List String) : List String :=
  if isImage ∧ res.getLast? = some "!" then res.dropLast else res

/-- The main loop of `strip_markdown_links` (parser.py lines 136-262),
transcribed branch by branch over the placeholder-protected text `t`.
`res` is the list of emitted pieces (single characters or link texts),
joined at the end exactly as Python joins its `result` list. -/
def stripGo (t : List Char) : Nat → Nat → List String → List String
  | 0, _, res => res
  | fuel + 1, i, res =>
    if i < t.length then
      if getC t i = '[' ∧ is_escaped t i = false then
        if 0 < i ∧ getC t (i - 1) = '!' ∧ is_escaped t (i - 1) = true then
          stripGo t fuel (i + 1) (res ++ [String.mk [getC t i]])
        else
          let isImage : Bool := 0 < i ∧ getC t (i - 1) = '!' ∧ is_escaped t (i - 1) = false
          let jd := scanBracketEnd t (t.length + 1) (i + 1) 1
          let j := jd.1
          if jd.2 = 0 ∧ j < t.length then
            let linkText := String.mk ((t.drop (i + 1)).take (j - 1 - (i + 1)))
            if getC t j = '(' then
              let k := j + 1
              if k < t.length ∧ getC t k = '<' then
                let k1 := scanUntilChar t '>' (t.length + 1) (k + 1)
                if k1 < t.length ∧ getC t k1 = '>' then
                  let k2 := k1 + 1 + countSpaceTabRun t (k1 + 1)
                  if k2 < t.length ∧ getC t k2 = ')' then
                    stripGo t fuel (k2 + 1) (popBang isImage res ++ [linkText])
                  else stripGo t fuel (i + 1) (res ++ [String.mk [getC t i]])
                else stripGo t fuel (i + 1) (res ++ [String.mk [getC t i]])
              else
                let kd := scanParenEnd t (t.length + 1) k 1
                if kd.2 = 0 then
                  stripGo t fuel kd.1 (popBang isImage res ++ [linkText])
                else stripGo t fuel (i + 1) (res ++ [String.mk [getC t i]])
            else if getC t j = '[' then
              let k1 := scanUntilChar t ']' (t.length + 1) (j + 1)
              if k1 < t.length ∧ getC t k1 = ']' then
                stripGo t fuel (k1 + 1) (popBang isImage res ++ [linkText])
              else stripGo t fuel (i + 1) (res ++ [String.mk [getC t i]])
            else stripGo t fuel (i + 1) (res ++ [String.mk [getC t i]])
          else stripGo t fuel (i + 1) (res ++ [String.mk [getC t i]])
      else stripGo t fuel (i + 1) (res ++ [String.mk [getC t i]])
    else res

/-- Replace every (left-to-right, non-overlapping) occurrence of the
non-empty pattern `pat` by `rep`, as Python's `str.replace`. -/
def replaceAllGo (pat rep : List Char) : Nat → List Char → List Char
  | _, [] => []
  | 0, s => s
  | fuel + 1, c :: rest =>
    if listStartsWith (c :: rest) pat ∧ pat ≠ [] then
      rep ++ replaceAllGo pat rep fuel ((c :: rest).drop pat.length)
    else c :: replaceAllGo pat rep fuel rest

/-- The restore loop of `strip_markdown_links` (parser.py lines 267-268):
substitute each protected span text back for its placeholder. -/
def restoreSpans : List Char → List (List Char) → Nat → List Char
  | out, [], _ => out
  | out, code :: rest, k =>
    restoreSpans (replaceAllGo (placeholder k).data code (out.length + 1) out) rest (k + 1)

/-- Embeds `strip_markdown_links` from parser.py: protect inline code
spans behind placeholders, strip link and image syntax with the
depth-counting scans, and restore the protected spans. -/
def strip_markdown_links (text : String) : String :=
  let spans := find_inline_code_spans text
  let protected_ := protectSpans text.data spans 0 0
  let t := protected_.1
  let res := stripGo t (t.length + 1) 0 []
  let joined := (res.map String.data).flatten
  String.mk (restoreSpans joined protected_.2 0)

/-- Lookup in a Python dict modelled as an insertion-ordered association
list where a later binding of a key shadows an earlier one. -/
def dict_get (l : List (String × Nat)) (k : String) : Option Nat :=
  (l.reverse.find? (fun p => p.1 = k)).map (fun p => p.2)

/-- Assignment in the dict model: append the new binding (which shadows
any earlier one under `dict_get`). -/
def dict_set (l : List (String × Nat)) (k : String) (v : Nat) : List (String × Nat) :=
  l ++ [(k, v)]

/-- The candidate slug for a base slug and a counter (generator.py line
65): the bare base for counter zero, otherwise `base-count`. -/
def link_candidate (base : String) (count : Nat) : String :=
  if count = 0 then base else base ++ "-" ++ natToStr count

/-- The collision-probing loop of `generate_toc_entries` (generator.py
lines 71-73): starting from `count`, advance while the candidate is
already used.  Returns the chosen link and the final counter value.  The
callers pass fuel `used.length + 1`, which the probing can never exhaust
because candidates are pairwise distinct. -/
def probe_link (used : List String) (base : String) : Nat → Nat → String × Nat
  | 0, count => (link_candidate base count, count)
  | fuel + 1, count =>
    if used.contains (link_candidate base count) then
      probe_link used base fuel (count + 1)
    else (link_candidate base count, count)

/-- Python's `s * n` for strings: `n` concatenated copies. -/
def strRepeat (s : String) (n : Nat) : String :=
  String.mk (List.flatten (List.replicate n s.data))

/-- State of the entry loop of `generate_toc_entries`: the per-base
counters, the used slugs in emission order (Python keeps a set; the
insertion-ordered list has the same membership and additionally records
the emitted slug sequence), and the rendered entry lines. -/
structure SlugState where
  ctrs : List (String × Nat) := []
  used : List String := []
  entries : List String := []
deriving DecidableEq, Repr

/-- The base slug a header contributes (generator.py lines 56-60): count
the leading hashes, strip and link-strip the remaining title, then slug
it. -/
def base_slug_of (cfg : TocConfig) (heading : String) : String :=
  let level := (heading.data.takeWhile (fun c => c = '#')).length
  let title := String.mk (stripList isPyWhitespace (heading.data.drop level))
  let title := strip_markdown_links title
  generate_slug title cfg.preserve_unicode

/-- The stripped display title of a header (generator.py lines 57-59). -/
def title_of (heading : String) : String :=
  let level := (heading.data.takeWhile (fun c => c = '#')).length
  strip_markdown_links (String.mk (stripList isPyWhitespace (heading.data.drop level)))

/-- The rendered TOC entry line for a header and its assigned slug
(generator.py lines 81-82). -/
def render_entry (cfg : TocConfig) (heading link : String) : String :=
  let level := (heading.data.takeWhile (fun c => c = '#')).length
  let indent := strRepeat cfg.indent_chars (level - cfg.min_level)
  indent ++ cfg.list_style ++ " [" ++ title_of heading ++ "](#" ++ link ++ ")\n"

/-- One iteration of the entry loop of `generate_toc_entries` (generator.py
lines 55-82): compute the base slug, take the per-base counter, probe past
used slugs, record the counter and the slug, and emit the rendered
line. -/
def toc_body_step (cfg : TocConfig) (st : SlugState) (heading : String) : SlugState :=
  let base := base_slug_of cfg heading
  let count0 := (dict_get st.ctrs base).getD 0
  let pr := probe_link st.used base (st.used.length + 1) count0
  { ctrs := dict_set st.ctrs base (pr.2 + 1)
    used := st.used ++ [pr.1]
    entries := st.entries ++ [render_entry cfg heading pr.1] }

/-- The entry loop of `generate_toc_entries` over all headers. -/
def toc_body_fold (cfg : TocConfig) : SlugState → List String → SlugState
  | st, [] => st
  | st, h :: hs => toc_body_fold cfg (toc_body_step cfg st h) hs

/-- The slugs `generate_toc_entries` assigns to a header list under a
normalized configuration, in emission order. -/
def assigned_slugs (cfg : TocConfig) (headers : List String) : List String :=
  (toc_body_fold cfg {} headers).used

/-- Embeds `generate_toc_entries` from generator.py: normalize and
validate the configuration, then frame the rendered entry lines with the
start marker, the TOC header text and the end marker. -/
def generate_toc_entries (headers : List String) (cfg : TocConfig) :
    Except String (List String) :=
  match normalize_config cfg with
  | Except.error e => Except.error e
  | Except.ok cfgN =>
    match validate_config cfgN with
    | Except.error e => Except.error e
    | Except.ok _ =>
      let st := toc_body_fold cfgN {} headers
      Except.ok ([cfgN.start_marker ++ "\n", cfgN.header_text ++ "\n\n"] ++
        st.entries ++ [cfgN.end_marker ++ "\n"])

/-- Embeds `validate_toc_markers` from generator.py: after validating the
configuration, fail when the start marker is not strictly before the end
marker, or when the spanned region exceeds `max_headers + 100` lines. -/
def validate_toc_markers (toc_start_line toc_end_line : Nat) (cfg : TocConfig) :
    Except String Unit :=
  match validate_config cfg with
  | Except.error e => Except.error e
  | Except.ok _ =>
    if toc_end_line ≤ toc_start_line then
      Except.error "Start marker must come before end marker."
    else if cfg.max_headers + 100 < toc_end_line - toc_start_line then
      Except.error "TOC section is suspiciously large"
    else Except.ok ()

/-- Specification-side restatement of the fence-closing rule, in the
spec's vocabulary: the line splits into a (possibly empty) prefix of
spaces/tabs, a non-empty run of the opening fence character at least as
long as the opening run (maximal: the next character differs from the
fence character), and a whitespace-only remainder; and the line's leading
whitespace is at most `CLOSING_FENCE_MAX_INDENT` columns. -/
def closes_fence_spec (fc : Char) (flen : Nat) (line : String) : Prop :=
  ∃ pre run post : List Char,
    line.data = pre ++ run ++ post ∧
    (∀ c ∈ pre, c = ' ' ∨ c = '\t') ∧
    run ≠ [] ∧ (∀ c ∈ run, c = fc) ∧ flen ≤ run.length ∧
    (∀ c, post.head? = some c → c ≠ fc) ∧
    (∀ c ∈ post, isPyWhitespace c = true) ∧
    leading_whitespace_columns line ≤ CLOSING_FENCE_MAX_INDENT

/-- No two adjacent characters of the list are both hyphens (the shape
the hyphen-collapsing step of `generate_slug` guarantees). -/
def NoTwoHyphens (l : List Char) : Prop :=
  List.Chain' (fun a b => ¬ (a = '-' ∧ b = '-')) l

/-- Specification-side statement that `s` is the first unused candidate
slug for `base` against the used set `used`: `s` is the candidate with
index `N` (the bare base for `N = 0`, else `base-N`), it is unused, and
every smaller candidate is used. -/
def is_least_free_slug (base : String) (used : List String) (s : String) : Prop :=
  ∃ N, s = link_candidate base N ∧
    used.contains (link_candidate base N) = false ∧
    ∀ j, j < N → used.contains (link_candidate base j) = true

/-! ## Theorems -/

/-- C1: a line scanned while the parser is inside a code block — in
`IN_FENCED_CODE` state (which covers every line of a fenced block after
the opening fence, the closing fence line included), or in
`IN_INDENTED_CODE` state with the block continuing — is excluded from the
parse result: the step leaves the header list and both TOC indices
unchanged (only the scanner context may change), and raises no error.
Since such lines are exactly the lines located strictly inside a fenced
or indented code block, none of them ever appears in `headers` or
determines `toc_start_line`/`toc_end_line`. -/
theorem code_block_lines_are_excluded (cfg : TocConfig) (maxLen : Nat)
    (m : List (Nat × Nat)) (st : ScanState) (n : Nat) (line : String)
    (h : st.ctx.state = ParserState.IN_FENCED_CODE ∨
      (st.ctx.state = ParserState.IN_INDENTED_CODE ∧ indented_code_continues line = true)) :
    ∃ ctx1, main_step cfg maxLen m st n line = Except.ok { st with ctx := ctx1 } := by
  rcases h with h | ⟨h1, h2⟩
  · exact ⟨(try_close_fence st.ctx line).getD st.ctx, by simp [main_step, h]⟩
  · exact ⟨st.ctx, by simp [main_step, h1, h2]⟩

/-- Witness for C1 at a concrete fenced-state scanner and a header-looking
line. -/
theorem code_block_lines_are_excluded_witness :
    (({ ctx := { state := ParserState.IN_FENCED_CODE, fence_char := some backtick
                 fence_length := 3, fence_indent_columns := 0 } } : ScanState).ctx.state =
        ParserState.IN_FENCED_CODE ∨
      (({ ctx := { state := ParserState.IN_FENCED_CODE, fence_char := some backtick
                   fence_length := 3, fence_indent_columns := 0 } } : ScanState).ctx.state =
          ParserState.IN_INDENTED_CODE ∧ indented_code_continues "## Hidden\n" = true)) ∧
    ∃ ctx1,
      main_step {} 10000 []
          { ctx := { state := ParserState.IN_FENCED_CODE, fence_char := some backtick
                     fence_length := 3, fence_indent_columns := 0 } } 2 "## Hidden\n" =
        Except.ok
          { ({ ctx := { state := ParserState.IN_FENCED_CODE, fence_char := some backtick
                        fence_length := 3, fence_indent_columns := 0 } } : ScanState) with
            ctx := ctx1 } :=
  ⟨Or.inl rfl,
    code_block_lines_are_excluded {} 10000 []
      { ctx := { state := ParserState.IN_FENCED_CODE, fence_char := some backtick
                 fence_length := 3, fence_indent_columns := 0 } } 2 "## Hidden\n"
      (Or.inl rfl)⟩

/-- C10: once the scanner is inside a fenced code block, if no remaining
line satisfies the fence-closing rules then the scan consumes every
remaining line without any change of state: the final scan state equals
the starting one, so the scanner stays in `IN_FENCED_CODE` through end of
input, no remaining line is recorded as a header, and neither TOC index
is set by any of them. -/
theorem unterminated_fence_swallows_rest (cfg : TocConfig) (maxLen : Nat)
    (m : List (Nat × Nat)) (st : ScanState) (n : Nat) (lines : List String)
    (h : st.ctx.state = ParserState.IN_FENCED_CODE)
    (hclose : ∀ l ∈ lines, try_close_fence st.ctx l = none) :
    main_scan cfg maxLen m st n lines = Except.ok st := by
  induction lines generalizing n with
  | nil => rfl
  | cons l ls ih =>
    have hstep : main_step cfg maxLen m st n l =
        Except.ok { st with ctx := (try_close_fence st.ctx l).getD st.ctx } := by
      simp [main_step, h]
    rw [hclose l (List.mem_cons_self l ls)] at hstep
    simp only [main_scan, hstep, Option.getD_none]
    exact ih (n + 1) (fun l' hl' => hclose l' (List.mem_cons_of_mem l hl'))

/-- Witness for C10: a fenced-state scanner and two concrete non-closing
lines (a fake header and a fake TOC marker). -/
theorem unterminated_fence_swallows_rest_witness :
    (({ ctx := { state := ParserState.IN_FENCED_CODE, fence_char := some backtick
                 fence_length := 3, fence_indent_columns := 0 } } : ScanState).ctx.state =
        ParserState.IN_FENCED_CODE) ∧
    main_scan {} 10000 []
        { ctx := { state := ParserState.IN_FENCED_CODE, fence_char := some backtick
                   fence_length := 3, fence_indent_columns := 0 } } 1
        ["## Hidden\n", "<!-- TOC -->\n"] =
      Except.ok
        { ctx := { state := ParserState.IN_FENCED_CODE, fence_char := some backtick
                   fence_length := 3, fence_indent_columns := 0 } } :=
  ⟨rfl,
    unterminated_fence_swallows_rest {} 10000 []
      { ctx := { state := ParserState.IN_FENCED_CODE, fence_char := some backtick
                 fence_length := 3, fence_indent_columns := 0 } } 1
      ["## Hidden\n", "<!-- TOC -->\n"] rfl
      (by intro l hl; fin_cases hl <;> rfl)⟩

/-- C8: `strip_markdown_links` resolves an inline link whose target
contains balanced nested parentheses to its link text (the Wikipedia
example of the spec), and when the target has no valid closing
parenthesis the original opening bracket is kept and the input passes
through unchanged. -/
theorem strip_links_nested_parens :
    strip_markdown_links
        "[Wikipedia](https://en.wikipedia.org/wiki/Bracket_(disambiguation))" =
      "Wikipedia" ∧
    strip_markdown_links "[text](url(unclosed" = "[text](url(unclosed" :=
  ⟨rfl, rfl⟩

/-- C5 (code bug): the header pattern compiled by `parse_markdown`
requires a literal space after the hash run, so the line with a tab
separator that the claim (and the repository's own tests,
`test_parse_markdown_handles_headers_with_tabs`) says is a header is not
recorded: parsing the one-line document leaves `headers` empty. -/
theorem tab_separated_header_not_recorded :
    parse_markdown ["##\tTitle\n"] none {} =
      Except.ok
        { full_file := ["##\tTitle\n"], headers := []
          toc_start_line := none, toc_end_line := none } ∧
    header_pattern_match 2 3 "##\tTitle\n" = none :=
  ⟨rfl, rfl⟩

/-- C3 (counterexample): on the document whose first line starts with the
end marker and whose second line starts with the start marker, with the
default configuration, `parse_markdown` returns a `ParseResult` with both
indices set and `toc_start_line = 1 > 0 = toc_end_line` — the claimed
invariant `toc_start_line < toc_end_line` fails. -/
theorem parse_can_return_reversed_markers :
    parse_markdown ["<!-- /TOC -->\n", "<!-- TOC -->\n"] none {} =
      Except.ok
        { full_file := ["<!-- /TOC -->\n", "<!-- TOC -->\n"]
          headers := []
          toc_start_line := some 1
          toc_end_line := some 0 } ∧
    ¬ ((1 : Nat) < 0) :=
  ⟨rfl, by decide⟩

/-- C3 (amended): `parse_markdown` itself may return both indices in
either order (each marker line outside code simply assigns its own
index); the ordering invariant is instead enforced by
`validate_toc_markers`, which — under a valid configuration — succeeds
exactly when `toc_start_line < toc_end_line` and the spanned region is at
most `max_headers + 100` lines, and otherwise raises. -/
theorem toc_marker_order_checked_by_validate (cfg : TocConfig) (s e : Nat)
    (h : validate_config cfg = Except.ok ()) :
    validate_toc_markers s e cfg = Except.ok () ↔
      (s < e ∧ e - s ≤ cfg.max_headers + 100) := by
  simp only [validate_toc_markers, h]
  split_ifs with h1 h2
  · simp only [reduceCtorEq, false_iff]
    omega
  · simp only [reduceCtorEq, false_iff]
    omega
  · simp only [true_iff]
    omega

/-- Witness for C3's amended theorem at the default configuration and the
marker positions of the spec's Example 6. -/
theorem toc_marker_order_checked_by_validate_witness :
    validate_config {} = Except.ok () ∧
    (validate_toc_markers 10 25 {} = Except.ok () ↔
      (10 < 25 ∧ 25 - 10 ≤ ({} : TocConfig).max_headers + 100)) :=
  ⟨rfl, toc_marker_order_checked_by_validate {} 10 25 rfl⟩

/-- C4 (counterexample): in a document whose two lines both start with
the start marker (with no end marker, so no validly paired interval),
`parse_markdown` reports `toc_start_line = 1`: the SECOND marker line,
not the first, determines the index, because each marker line assigns its
own line number over the previous value. -/
theorem later_marker_line_overwrites :
    parse_markdown ["<!-- TOC -->\n", "<!-- TOC -->\n"] none {} =
      Except.ok
        { full_file := ["<!-- TOC -->\n", "<!-- TOC -->\n"]
          headers := []
          toc_start_line := some 1
          toc_end_line := none } ∧
    some (1 : Nat) ≠ some 0 :=
  ⟨rfl, by decide⟩

/-- C4 (amended): every line processed as plain `NORMAL` text (not inside
code, not opening a code block, not the TOC header line, within the line
length limit, with the header budget not exhausted) that starts with the
configured start marker sets `toc_start_line` to its OWN index,
overwriting any earlier value; symmetrically a line starting with the end
marker sets `toc_end_line` to its own index, except that a start-marker
line entering a validated TOC region skips the end-marker assignment.
Hence the LAST such processed marker line, not the first, determines the
final indices. -/
theorem normal_marker_line_sets_own_index (cfg : TocConfig) (maxLen : Nat)
    (m : List (Nat × Nat)) (st : ScanState) (n : Nat) (line : String)
    (hN : st.ctx.state = ParserState.NORMAL)
    (hof : try_open_fence st.ctx line = none)
    (hei : try_enter_indented st.ctx line = none)
    (hht : strStartsWith line cfg.header_text = false)
    (hlen : effective_line_length line ≤ maxLen)
    (hhc : st.headers.length < cfg.max_headers) :
    (strStartsWith line cfg.start_marker = true →
      (main_step cfg maxLen m st n line).map ScanState.toc_start_line =
        Except.ok (some n)) ∧
    (strStartsWith line cfg.end_marker = true →
      (strStartsWith line cfg.start_marker = true → lookup_toc_end m n = none) →
      (main_step cfg maxLen m st n line).map ScanState.toc_end_line =
        Except.ok (some n)) := by
  have hlen' : ¬ (maxLen < effective_line_length line) := not_lt.mpr hlen
  constructor
  · intro hs
    by_cases hl : (lookup_toc_end m n).isSome
    · rcases Option.isSome_iff_exists.mp hl with ⟨e, he⟩
      simp [main_step, hN, hof, hei, hht, hlen', hs, try_enter_toc, he, Except.map]
    · have he : lookup_toc_end m n = none := Option.not_isSome_iff_eq_none.mp hl
      by_cases hend : strStartsWith line cfg.end_marker
      · simp [main_step, hN, hof, hei, hht, hlen', hs, hend, try_enter_toc, he, Except.map]
      · cases hm : header_pattern_match cfg.min_level cfg.max_level line with
        | none =>
          simp [main_step, hN, hof, hei, hht, hlen', hs, hend, try_enter_toc, he, hm,
            Except.map]
        | some hdr =>
          have hcount : ¬ (cfg.max_headers < st.headers.length + 1) := by omega
          simp [main_step, hN, hof, hei, hht, hlen', hs, hend, try_enter_toc, he, hm,
            hcount, Except.map]
  · intro hend himp
    by_cases hs : strStartsWith line cfg.start_marker
    · have he : lookup_toc_end m n = none := himp hs
      simp [main_step, hN, hof, hei, hht, hlen', hs, hend, try_enter_toc, he, Except.map]
    · by_cases hl : (lookup_toc_end m n).isSome
      · rcases Option.isSome_iff_exists.mp hl with ⟨e, he⟩
        simp [main_step, hN, hof, hei, hht, hlen', hs, hend, try_enter_toc, he, Except.map]
      · have he : lookup_toc_end m n = none := Option.not_isSome_iff_eq_none.mp hl
        simp [main_step, hN, hof, hei, hht, hlen', hs, hend, try_enter_toc, he, Except.map]

/-- Witness for C4's amended theorem: the default start-marker line at
line 5 of a scan in `NORMAL` state sets `toc_start_line := 5`. -/
theorem normal_marker_line_sets_own_index_witness :
    (({} : ScanState).ctx.state = ParserState.NORMAL ∧
      try_open_fence ({} : ScanState).ctx "<!-- TOC -->\n" = none ∧
      try_enter_indented ({} : ScanState).ctx "<!-- TOC -->\n" = none ∧
      strStartsWith "<!-- TOC -->\n" ({} : TocConfig).header_text = false ∧
      effective_line_length "<!-- TOC -->\n" ≤ 10000 ∧
      ({} : ScanState).headers.length < ({} : TocConfig).max_headers ∧
      strStartsWith "<!-- TOC -->\n" ({} : TocConfig).start_marker = true) ∧
    (main_step {} 10000 [] {} 5 "<!-- TOC -->\n").map ScanState.toc_start_line =
      Except.ok (some 5) :=
  ⟨⟨rfl, rfl, rfl, rfl, by decide, by decide, rfl⟩,
    (normal_marker_line_sets_own_index {} 10000 [] {} 5 "<!-- TOC -->\n" rfl rfl rfl rfl
      (by decide) (by decide)).1 rfl⟩

/-- Error localization for `main_scan`: an erroring scan splits into a
successful scan of a prefix, the erring line, and the erring step. -/
theorem main_scan_error_split (cfg : TocConfig) (maxLen : Nat) (m : List (Nat × Nat)) :
    ∀ (ls : List String) (st : ScanState) (n : Nat) (e : ParseErr),
      main_scan cfg maxLen m st n ls = Except.error e →
      ∃ j st' line, main_scan cfg maxLen m st n (ls.take j) = Except.ok st' ∧
        ls.get? j = some line ∧
        main_step cfg maxLen m st' (n + j) line = Except.error e := by
  intro ls
  induction ls with
  | nil => intro st n e h; simp [main_scan] at h
  | cons l ls ih =>
    intro st n e h
    cases hstep : main_step cfg maxLen m st n l with
    | error e' =>
      have he : e' = e := by
        simp only [main_scan, hstep] at h
        exact (Except.error.inj h)
      exact ⟨0, st, l, rfl, rfl, by simpa [he] using hstep⟩
    | ok st1 =>
      simp only [main_scan, hstep] at h
      rcases ih st1 (n + 1) e h with ⟨j, st', line, hpre, hget, herr⟩
      refine ⟨j + 1, st', line, ?_, ?_, ?_⟩
      · simp only [List.take_succ_cons, main_scan, hstep]
        exact hpre
      · simpa using hget
      · have : n + (j + 1) = n + 1 + j := by omega
        rw [this]
        exact herr

/-- A step on a line that exits an indented code block behaves exactly
like a step from `NORMAL` state on the same line. -/
theorem main_step_indented_reset (cfg : TocConfig) (maxLen : Nat) (m : List (Nat × Nat))
    (st : ScanState) (n : Nat) (line : String)
    (h1 : st.ctx.state = ParserState.IN_INDENTED_CODE)
    (h2 : indented_code_continues line = false) :
    main_step cfg maxLen m st n line =
      main_step cfg maxLen m
        { st with ctx := { st.ctx with state := ParserState.NORMAL } } n line := by
  simp [main_step, h1, h2]

/-- A step taken in `IN_TOC` state never raises (such lines are consumed
without any length check). -/
theorem main_step_in_toc_never_errors (cfg : TocConfig) (maxLen : Nat)
    (m : List (Nat × Nat)) (st : ScanState) (n : Nat) (line : String)
    (h : st.ctx.state = ParserState.IN_TOC) :
    ∃ st', main_step cfg maxLen m st n line = Except.ok st' := by
  rcases hval : main_step cfg maxLen m st n line with e | st'
  · exfalso
    rcases htoc : try_enter_toc st.ctx n m st.toc_end_stack with _ | ⟨c1, s1⟩
    · rcases hexit : try_exit_toc st.ctx n st.toc_end_stack with _ | ⟨c2, s2⟩
      · simp [main_step, h, htoc, hexit] at hval
      · simp [main_step, h, htoc, hexit] at hval
    · simp [main_step, h, htoc] at hval
  · exact ⟨st', rfl⟩

/-- Inversion of the main-pass tail from `NORMAL` state: a `LineTooLong`
error forces the control path through every earlier guard, so the fence
and indent openers failed, the line is not the TOC header line, and the
stripped length exceeds the limit. -/
theorem normal_tail_lineTooLong_inv (cfg : TocConfig) (maxLen : Nat) (m : List (Nat × Nat))
    (st : ScanState) (n : Nat) (line : String) (k lim : Nat)
    (hN : st.ctx.state = ParserState.NORMAL)
    (h : main_step cfg maxLen m st n line = Except.error (ParseErr.lineTooLong k lim)) :
    k = n + 1 ∧ lim = maxLen ∧
    try_open_fence st.ctx line = none ∧ try_enter_indented st.ctx line = none ∧
    strStartsWith line cfg.header_text = false ∧
    maxLen < effective_line_length line := by
  rcases hof : try_open_fence st.ctx line with _ | ctx1
  · rcases hei : try_enter_indented st.ctx line with _ | ctx2
    · by_cases hht : strStartsWith line cfg.header_text
      · simp [main_step, hN, hof, hei, hht] at h
      · by_cases hlen : maxLen < effective_line_length line
        · refine ⟨?_, ?_, rfl, rfl, by simpa using hht, hlen⟩ <;>
          · simp [main_step, hN, hof, hei, hht, hlen] at h
            omega
        · by_cases hs : strStartsWith line cfg.start_marker
          · rcases henter : try_enter_toc st.ctx n m st.toc_end_stack with _ | ⟨c1, s1⟩
            · by_cases hend : strStartsWith line cfg.end_marker
              · simp [main_step, hN, hof, hei, hht, hlen, hs, henter, hend] at h
              · rcases hm : header_pattern_match cfg.min_level cfg.max_level line with _ | hdr
                · simp [main_step, hN, hof, hei, hht, hlen, hs, henter, hend, hm] at h
                · by_cases hcount : cfg.max_headers < st.headers.length + 1
                  · simp [main_step, hN, hof, hei, hht, hlen, hs, henter, hend, hm,
                      hcount] at h
                  · simp [main_step, hN, hof, hei, hht, hlen, hs, henter, hend, hm,
                      hcount] at h
            · simp [main_step, hN, hof, hei, hht, hlen, hs, henter] at h
          · by_cases hend : strStartsWith line cfg.end_marker
            · simp [main_step, hN, hof, hei, hht, hlen, hs, hend] at h
            · rcases hm : header_pattern_match cfg.min_level cfg.max_level line with _ | hdr
              · simp [main_step, hN, hof, hei, hht, hlen, hs, hend, hm] at h
              · by_cases hcount : cfg.max_headers < st.headers.length + 1
                · simp [main_step, hN, hof, hei, hht, hlen, hs, hend, hm, hcount] at h
                · simp [main_step, hN, hof, hei, hht, hlen, hs, hend, hm, hcount] at h
    · simp [main_step, hN, hof, hei] at h
  · simp [main_step, hN, hof] at h

/-- Full inversion of a `LineTooLong` step: the error carries the 1-based
line number and the limit, and the erring line was processed outside
fenced code, outside TOC state, not as a continuing indented-code line,
was not the TOC header line, and exceeded the limit. -/
theorem main_step_lineTooLong_inv (cfg : TocConfig) (maxLen : Nat) (m : List (Nat × Nat))
    (st : ScanState) (n : Nat) (line : String) (k lim : Nat)
    (h : main_step cfg maxLen m st n line = Except.error (ParseErr.lineTooLong k lim)) :
    k = n + 1 ∧ lim = maxLen ∧
    st.ctx.state ≠ ParserState.IN_FENCED_CODE ∧
    st.ctx.state ≠ ParserState.IN_TOC ∧
    ¬ (st.ctx.state = ParserState.IN_INDENTED_CODE ∧ indented_code_continues line = true) ∧
    strStartsWith line cfg.header_text = false ∧
    maxLen < effective_line_length line := by
  by_cases h1 : st.ctx.state = ParserState.IN_FENCED_CODE
  · simp [main_step, h1] at h
  · by_cases h3 : st.ctx.state = ParserState.IN_TOC
    · rcases main_step_in_toc_never_errors cfg maxLen m st n line h3 with ⟨st', hok⟩
      rw [hok] at h
      cases h
    · by_cases h2 : st.ctx.state = ParserState.IN_INDENTED_CODE
      · by_cases hc : indented_code_continues line
        · simp [main_step, h1, h2, hc] at h
        · have hc' : indented_code_continues line = false := by simpa using hc
          rw [main_step_indented_reset cfg maxLen m st n line h2 hc'] at h
          rcases normal_tail_lineTooLong_inv cfg maxLen m _ n line k lim rfl h with
            ⟨e1, e2, _, _, e5, e6⟩
          exact ⟨e1, e2, h1, h3, fun hx => by simp [hc'] at hx, e5, e6⟩
      · have hN : st.ctx.state = ParserState.NORMAL := by
          cases hx : st.ctx.state
          · rfl
          · exact absurd hx h3
          · exact absurd hx h1
          · exact absurd hx h2
        rcases normal_tail_lineTooLong_inv cfg maxLen m st n line k lim hN h with
          ⟨e1, e2, _, _, e5, e6⟩
        exact ⟨e1, e2, h1, h3, fun hx => h2 hx.1, e5, e6⟩

/-- C7 (counterexample): with the valid configuration whose start marker
equals the default TOC header text, the document below has the validly
paired TOC interval `(0, 2)` computed by the pre-pass, yet
`parse_markdown` raises `LineTooLong` for line index 1 — a line lying
strictly inside that validly paired TOC region — because the region's
start-marker line is skipped by the header-text check before the TOC
state is ever entered. -/
theorem long_line_inside_paired_toc_region_raises :
    validate_config { start_marker := "## Table of Contents" } = Except.ok () ∧
    toc_start_to_end { start_marker := "## Table of Contents" }
        ["## Table of Contents\n", "XXXXXXX\n", "<!-- /TOC -->\n"] = [(0, 2)] ∧
    parse_markdown ["## Table of Contents\n", "XXXXXXX\n", "<!-- /TOC -->\n"] (some 5)
        { start_marker := "## Table of Contents" } =
      Except.error (ParseErr.lineTooLong 2 5) ∧
    ((0 : Nat) < 1 ∧ (1 : Nat) < 2) :=
  ⟨rfl, rfl, rfl, by decide⟩

/-- C7 (amended): `parse_markdown` raises `LineTooLong` only with the
1-based number of a line that the main scan processes outside fenced
code, outside the scanner's `IN_TOC` state (the state that covers every
line after an actually-entered TOC start marker up to its end marker),
not as a continuing indented-code line, that is not prefixed by the
configured TOC header text, and whose stripped length exceeds the
effective limit, which the error carries; and a line processed in
`IN_TOC` state never raises at all.  Because the result is an `Except`,
an erroring parse returns no partial `ParseResult`.  (The pre-pass
intervals do not by themselves guarantee the exemption: a paired region
whose start line is shadowed by the header-text skip is never entered,
as the counterexample shows.) -/
theorem line_too_long_characterization :
    (∀ (lines : List String) (maxLenOpt : Option Nat) (cfg : TocConfig) (k lim : Nat),
      parse_markdown lines maxLenOpt cfg = Except.error (ParseErr.lineTooLong k lim) →
      lim = maxLenOpt.getD cfg.max_line_length ∧
      ∃ i line st, k = i + 1 ∧ lines.get? i = some line ∧
        main_scan cfg lim (toc_start_to_end cfg lines) {} 0 (lines.take i) =
          Except.ok st ∧
        st.ctx.state ≠ ParserState.IN_FENCED_CODE ∧
        st.ctx.state ≠ ParserState.IN_TOC ∧
        ¬ (st.ctx.state = ParserState.IN_INDENTED_CODE ∧
            indented_code_continues line = true) ∧
        strStartsWith line cfg.header_text = false ∧
        lim < effective_line_length line) ∧
    (∀ (cfg : TocConfig) (maxLen : Nat) (m : List (Nat × Nat)) (st : ScanState)
        (n : Nat) (line : String), st.ctx.state = ParserState.IN_TOC →
      ∃ st', main_step cfg maxLen m st n line = Except.ok st') := by
  constructor
  · intro lines maxLenOpt cfg k lim h
    rcases hv : validate_config cfg with msg | u
    · simp [parse_markdown, hv] at h
    · cases u
      rcases hscan : main_scan cfg (maxLenOpt.getD cfg.max_line_length)
          (toc_start_to_end cfg lines) {} 0 lines with e | stf
      · have he : e = ParseErr.lineTooLong k lim := by
          simp only [parse_markdown, hv, hscan] at h
          exact Except.error.inj h
        subst he
        rcases main_scan_error_split cfg (maxLenOpt.getD cfg.max_line_length)
            (toc_start_to_end cfg lines) lines {} 0 _ hscan with
          ⟨j, st', line, hpre, hget, herr⟩
        rcases main_step_lineTooLong_inv cfg (maxLenOpt.getD cfg.max_line_length)
            (toc_start_to_end cfg lines) st' (0 + j) line k lim herr with
          ⟨e1, e2, e3, e4, e5, e6, e7⟩
        subst e2
        exact ⟨rfl, j, line, st', by omega, hget, hpre, e3, e4, e5, e6, e7⟩
      · simp [parse_markdown, hv, hscan] at h
  · exact fun cfg maxLen m st n line h =>
      main_step_in_toc_never_errors cfg maxLen m st n line h

/-- Witness for C7's amended theorem at a concrete erroring parse (a
nine-character line against limit 3). -/
theorem line_too_long_characterization_witness :
    parse_markdown ["XXXXXXXX\n"] (some 3) {} =
      Except.error (ParseErr.lineTooLong 1 3) ∧
    (3 = (some 3).getD (({} : TocConfig)).max_line_length ∧
      ∃ i line st, (1 : Nat) = i + 1 ∧ ["XXXXXXXX\n"].get? i = some line ∧
        main_scan {} 3 (toc_start_to_end {} ["XXXXXXXX\n"]) {} 0
            (["XXXXXXXX\n"].take i) = Except.ok st ∧
        st.ctx.state ≠ ParserState.IN_FENCED_CODE ∧
        st.ctx.state ≠ ParserState.IN_TOC ∧
        ¬ (st.ctx.state = ParserState.IN_INDENTED_CODE ∧
            indented_code_continues line = true) ∧
        strStartsWith line ({} : TocConfig).header_text = false ∧
        3 < effective_line_length line) :=
  ⟨rfl, line_too_long_characterization.1 ["XXXXXXXX\n"] (some 3) {} 1 3 rfl⟩

/-- Dropping as many elements as the `takeWhile` prefix is `dropWhile`. -/
theorem drop_length_takeWhile {α : Type} (p : α → Bool) (l : List α) :
    l.drop (l.takeWhile p).length = l.dropWhile p := by
  induction l with
  | nil => rfl
  | cons a t ih =>
    by_cases h : p a <;>
      simp [List.takeWhile_cons, List.dropWhile_cons, h, ih]

/-- The fence-closing test agrees with its specification-side
restatement `closes_fence_spec`. -/
theorem close_fence_spec_iff (ctx : ParserContext) (line : String) (fc : Char)
    (hst : ctx.state = ParserState.IN_FENCED_CODE)
    (hfc : ctx.fence_char = some fc)
    (hkind : fc = backtick ∨ fc = '~') :
    (try_close_fence ctx line).isSome = true ↔
      closes_fence_spec fc ctx.fence_length line := by
  have hfcsp : isSpaceOrTab fc = false := by
    rcases hkind with h | h <;> subst h <;> decide
  constructor
  · intro hsome
    simp only [try_close_fence, hst, hfc, eq_self_iff_true, if_true] at hsome
    split at hsome
    · simp at hsome
    · rename_i c0 rest heqstr
      split at hsome
      · rename_i hc0
        split at hsome
        · simp at hsome
        · rename_i hrun
          split at hsome
          · rename_i hall
            split at hsome
            · simp at hsome
            · rename_i hcols
              subst hc0
              refine ⟨line.data.takeWhile isSpaceOrTab,
                (line.data.dropWhile isSpaceOrTab).takeWhile (fun d => d = c0),
                (line.data.dropWhile isSpaceOrTab).dropWhile (fun d => d = c0),
                ?_, ?_, ?_, ?_, ?_, ?_, ?_, ?_⟩
              · rw [List.append_assoc, List.takeWhile_append_dropWhile,
                  List.takeWhile_append_dropWhile]
              · intro c hc
                have := List.mem_takeWhile_imp hc
                simpa [isSpaceOrTab] using this
              · rw [heqstr]
                simp
              · intro c hc
                have := List.mem_takeWhile_imp hc
                simpa using this
              · omega
              · intro c hchead
                have := List.head?_dropWhile_not (fun d => decide (d = c0))
                  (line.data.dropWhile isSpaceOrTab)
                rw [hchead] at this
                simpa using this
              · intro c hc
                rw [drop_length_takeWhile] at hall
                exact List.all_eq_true.mp hall c hc
              · omega
          · simp at hsome
      · simp at hsome
  · rintro ⟨pre, run, post, heq, hpre, hne, hrunfc, hlen, hhead, hpost, hcols⟩
    rcases hrunE : run with _ | ⟨r0, run'⟩
    · exact absurd hrunE hne
    subst hrunE
    have hr0 : r0 = fc := hrunfc r0 (List.mem_cons_self _ _)
    subst hr0
    have hpreq : ∀ c ∈ pre, isSpaceOrTab c = true := by
      intro c hc
      rcases hpre c hc with h | h <;> simp [isSpaceOrTab, h]
    have hstr : line.data.dropWhile isSpaceOrTab = (r0 :: run') ++ post := by
      rw [heq, List.append_assoc, List.dropWhile_append_of_pos hpreq]
      rw [List.cons_append, List.dropWhile_cons_of_neg (by simp [hfcsp])]
    have hruntw : List.takeWhile (fun d => decide (d = r0)) (r0 :: (run' ++ post)) =
        r0 :: run' := by
      rw [← List.cons_append,
        List.takeWhile_append_of_pos (by intro a ha; simpa using hrunfc a ha)]
      cases hpostE : post with
      | nil => simp
      | cons p0 post' =>
        have hp0 : p0 ≠ r0 := hhead p0 (by rw [hpostE]; rfl)
        rw [List.takeWhile_cons_of_neg (by simpa using hp0)]
        simp
    simp only [try_close_fence, hst, hfc, hstr, List.cons_append, eq_self_iff_true,
      if_true]
    rw [hruntw]
    have hlen' : ¬ ((r0 :: run').length < ctx.fence_length) := by
      simp only [List.length_cons]
      have := hlen
      simp only [List.length_cons] at this
      omega
    rw [if_neg hlen']
    simp only [List.length_cons, List.drop_succ_cons, List.drop_left]
    rw [if_pos (List.all_eq_true.mpr hpost)]
    rw [if_neg (by omega : ¬ (CLOSING_FENCE_MAX_INDENT < leading_whitespace_columns line))]
    rfl

/-- C2 (counterexample): a fence opened at indentation 2 (so the claim
would allow closing indentation up to 5 columns) is NOT closed by a
matching run indented 5 columns: the closing check compares the closing
line's indentation against the absolute bound
`CLOSING_FENCE_MAX_INDENT = 3`, not against the opening indentation
plus 3. -/
theorem five_column_close_after_two_column_open_fails :
    try_open_fence {} "  ```\n" =
      some { state := ParserState.IN_FENCED_CODE, fence_char := some backtick
             fence_length := 3, fence_indent_columns := 2 } ∧
    try_close_fence
        { state := ParserState.IN_FENCED_CODE, fence_char := some backtick
          fence_length := 3, fence_indent_columns := 2 } "     ```\n" = none ∧
    (5 : Nat) ≤ 2 + 3 :=
  ⟨rfl, rfl, by decide⟩

/-- C2 (amended): while inside a fenced code block, a line closes the
fence exactly when its first non-whitespace run consists of the opening
fence character repeated at least the opening run length, nothing but
whitespace follows the run, and the line's ABSOLUTE indentation is at
most 3 columns (`CLOSING_FENCE_MAX_INDENT`), independent of the opening
fence's indentation: the recorded opening indentation does not influence
the closing test at all. -/
theorem close_fence_rule (ctx : ParserContext) (line : String) (fc : Char)
    (hst : ctx.state = ParserState.IN_FENCED_CODE)
    (hfc : ctx.fence_char = some fc)
    (hkind : fc = backtick ∨ fc = '~') :
    ((try_close_fence ctx line).isSome = true ↔
      closes_fence_spec fc ctx.fence_length line) ∧
    (∀ j, try_close_fence { ctx with fence_indent_columns := j } line =
      try_close_fence ctx line) :=
  ⟨close_fence_spec_iff ctx line fc hst hfc hkind, fun _ => rfl⟩

/-- Witness for C2's amended theorem: the two-column-indented backtick
fence context against a three-column-indented closing line. -/
theorem close_fence_rule_witness :
    (({ state := ParserState.IN_FENCED_CODE, fence_char := some backtick
        fence_length := 3, fence_indent_columns := 2 } : ParserContext).state =
        ParserState.IN_FENCED_CODE ∧
      ({ state := ParserState.IN_FENCED_CODE, fence_char := some backtick
         fence_length := 3, fence_indent_columns := 2 } : ParserContext).fence_char =
        some backtick) ∧
    ((try_close_fence
        { state := ParserState.IN_FENCED_CODE, fence_char := some backtick
          fence_length := 3, fence_indent_columns := 2 } "   ```\n").isSome = true ↔
      closes_fence_spec backtick 3 "   ```\n") ∧
    (∀ j, try_close_fence
        { state := ParserState.IN_FENCED_CODE, fence_char := some backtick
          fence_length := 3, fence_indent_columns := j } "   ```\n" =
      try_close_fence
        { state := ParserState.IN_FENCED_CODE, fence_char := some backtick
          fence_length := 3, fence_indent_columns := 2 } "   ```\n") :=
  ⟨⟨rfl, rfl⟩,
    close_fence_rule
      { state := ParserState.IN_FENCED_CODE, fence_char := some backtick
        fence_length := 3, fence_indent_columns := 2 } "   ```\n" backtick rfl rfl
      (Or.inl rfl)⟩

/-- Characters of a collapsed list are non-run characters of the input or
the replacement character. -/
theorem mem_collapseRuns (p : Char → Bool) (r : Char) :
    ∀ (l : List Char) (b : Bool) (c : Char), c ∈ collapseRuns p r l b →
      (c ∈ l ∧ p c = false) ∨ c = r := by
  intro l
  induction l with
  | nil => intro b c h; simp [collapseRuns] at h
  | cons a t ih =>
    intro b c h
    by_cases hp : p a
    · cases b with
      | true =>
        simp only [collapseRuns, hp, if_true] at h
        rcases ih true c h with ⟨h1, h2⟩ | h3
        · exact Or.inl ⟨List.mem_cons_of_mem a h1, h2⟩
        · exact Or.inr h3
      | false =>
        simp only [collapseRuns, hp, if_true, Bool.false_eq_true, if_false] at h
        rcases List.mem_cons.mp h with h0 | h0
        · exact Or.inr h0
        · rcases ih true c h0 with ⟨h1, h2⟩ | h3
          · exact Or.inl ⟨List.mem_cons_of_mem a h1, h2⟩
          · exact Or.inr h3
    · have hp' : p a = false := by simpa using hp
      simp only [collapseRuns, hp', Bool.false_eq_true, if_false] at h
      rcases List.mem_cons.mp h with h0 | h0
      · subst h0
        exact Or.inl ⟨List.mem_cons_self _ _, hp'⟩
      · rcases ih false c h0 with ⟨h1, h2⟩ | h3
        · exact Or.inl ⟨List.mem_cons_of_mem a h1, h2⟩
        · exact Or.inr h3

/-- Collapsing runs of a character class absent from the list is the
identity. -/
theorem collapseRuns_eq_self_of_no_p (p : Char → Bool) (r : Char) :
    ∀ (l : List Char), (∀ c ∈ l, p c = false) → ∀ b, collapseRuns p r l b = l := by
  intro l
  induction l with
  | nil => intro _ _; rfl
  | cons a t ih =>
    intro h b
    have ha : p a = false := h a (List.mem_cons_self _ _)
    simp only [collapseRuns, ha, Bool.false_eq_true, if_false]
    rw [ih (fun c hc => h c (List.mem_cons_of_mem a hc)) false]

/-- The hyphen-collapsing step never emits two adjacent hyphens, and in
run state it never emits a leading hyphen. -/
theorem collapseRuns_hyphen_output (l : List Char) :
    (∀ b, NoTwoHyphens (collapseRuns (fun c => c = '-') '-' l b)) ∧
    (collapseRuns (fun c => c = '-') '-' l true).head? ≠ some '-' := by
  induction l with
  | nil => exact ⟨fun _ => List.chain'_nil, by simp [collapseRuns]⟩
  | cons a t ih =>
    by_cases hp : a = '-'
    · constructor
      · intro b
        cases b with
        | true =>
          simpa [collapseRuns, hp] using ih.1 true
        | false =>
          have hout : collapseRuns (fun c => c = '-') '-' (a :: t) false =
              '-' :: collapseRuns (fun c => c = '-') '-' t true := by
            simp [collapseRuns, hp]
          rw [hout, NoTwoHyphens, List.chain'_cons']
          refine ⟨?_, ih.1 true⟩
          intro y hy hcontra
          apply ih.2
          rw [hcontra.2] at hy
          exact hy
      · simpa [collapseRuns, hp] using ih.2
    · have hout : ∀ b, collapseRuns (fun c => c = '-') '-' (a :: t) b =
          a :: collapseRuns (fun c => c = '-') '-' t false := by
        intro b
        simp [collapseRuns, hp]
      constructor
      · intro b
        rw [hout b, NoTwoHyphens, List.chain'_cons']
        exact ⟨fun y _ h => hp h.1, ih.1 false⟩
      · rw [hout true]
        simp [hp]

/-- On a list with no adjacent hyphens (and, in run state, no leading
hyphen) the hyphen-collapsing step is the identity. -/
theorem collapseRuns_hyphen_eq_self :
    ∀ (l : List Char), NoTwoHyphens l → ∀ b, (b = true → l.head? ≠ some '-') →
      collapseRuns (fun c => c = '-') '-' l b = l := by
  intro l
  induction l with
  | nil => intro _ b _; rfl
  | cons a t ih =>
    intro hna b hb
    by_cases hp : a = '-'
    · cases b with
      | true =>
        exact absurd (show (a :: t).head? = some '-' by simp [hp]) (hb rfl)
      | false =>
        have hth : t.head? ≠ some '-' := by
          intro hcontra
          rw [NoTwoHyphens, List.chain'_cons'] at hna
          exact hna.1 '-' hcontra ⟨hp, rfl⟩
        have htail : collapseRuns (fun c => c = '-') '-' t true = t :=
          ih (List.Chain'.tail hna) true (fun _ => hth)
        simp [collapseRuns, hp, htail]
    · have htail : collapseRuns (fun c => c = '-') '-' t false = t :=
        ih (List.Chain'.tail hna) false (by intro h; cases h)
      simp [collapseRuns, hp, htail]

/-- Stripping a character class absent from both ends is the identity. -/
theorem stripList_eq_self (p : Char → Bool) (l : List Char)
    (hhead : ∀ c, l.head? = some c → p c = false)
    (hlast : ∀ c, l.getLast? = some c → p c = false) :
    stripList p l = l := by
  have h1 : l.dropWhile p = l := by
    cases hl : l with
    | nil => rfl
    | cons a t =>
      have := hhead a (by rw [hl]; rfl)
      rw [List.dropWhile_cons_of_neg (by simp [this])]
  have h2 : l.reverse.dropWhile p = l.reverse := by
    cases hl : l.reverse with
    | nil => rfl
    | cons a t =>
      have ha : l.getLast? = some a := by
        rw [← List.head?_reverse, hl]; rfl
      have := hlast a ha
      rw [List.dropWhile_cons_of_neg (by simp [this])]
  rw [stripList, h1, h2, List.reverse_reverse]

/-- Stripping yields a subset of the input. -/
theorem mem_stripList (p : Char → Bool) (l : List Char) (c : Char)
    (h : c ∈ stripList p l) : c ∈ l := by
  rw [stripList] at h
  rw [List.mem_reverse] at h
  have h2 := (List.dropWhile_suffix p).mem h
  rw [List.mem_reverse] at h2
  exact (List.dropWhile_suffix p).mem h2

/-- The head of a stripped list does not satisfy the stripped class. -/
theorem head?_stripList (p : Char → Bool) (l : List Char) (c : Char)
    (h : (stripList p l).head? = some c) : p c = false := by
  rw [stripList, List.head?_reverse] at h
  rcases hsl : ((l.dropWhile p).reverse).dropWhile p with _ | ⟨a, t⟩
  · rw [hsl] at h; cases h
  · have hsuff := List.dropWhile_suffix (l := (l.dropWhile p).reverse) p
    rw [hsl] at hsuff h
    rcases hsuff with ⟨pre, hpre⟩
    have hlast : ((l.dropWhile p).reverse).getLast? = some c := by
      rw [← hpre, List.getLast?_append, h]
      rfl
    rw [List.getLast?_reverse] at hlast
    rcases hdl : l.dropWhile p with _ | ⟨a0, t0⟩
    · rw [hdl] at hlast; cases hlast
    · rw [hdl] at hlast
      have hh : a0 = c := by simpa using hlast
      have hnot := List.head?_dropWhile_not p l
      rw [hdl] at hnot
      simp only [List.head?_cons] at hnot
      rw [← hh]
      exact hnot

/-- The last element of a stripped list does not satisfy the stripped
class. -/
theorem getLast?_stripList (p : Char → Bool) (l : List Char) (c : Char)
    (h : (stripList p l).getLast? = some c) : p c = false := by
  rw [stripList, List.getLast?_reverse] at h
  have := List.head?_dropWhile_not p ((l.dropWhile p).reverse)
  rw [h] at this
  exact this

/-- Stripping preserves the no-adjacent-hyphens invariant. -/
theorem noTwoHyphens_stripList (l : List Char) (h : NoTwoHyphens l) :
    NoTwoHyphens (stripList (fun c => c = '-') l) := by
  rw [stripList]
  have hsym : ∀ (m : List Char), NoTwoHyphens m → NoTwoHyphens m.reverse := by
    intro m hm
    rw [NoTwoHyphens, List.chain'_reverse]
    exact hm.imp (fun a b hab ⟨x, y⟩ => hab ⟨y, x⟩)
  apply hsym
  apply List.Chain'.suffix _ (List.dropWhile_suffix _)
  apply hsym
  exact h.suffix (List.dropWhile_suffix _)

/-- The NFKD model is the identity on ASCII lists. -/
theorem pyNFKD_ascii (l : List Char) (h : ∀ c ∈ l, c.toNat ≤ 127) :
    pyNFKD l = l := by
  induction l with
  | nil => rfl
  | cons a t ih =>
    have ha : a.toNat ≤ 127 := h a (List.mem_cons_self _ _)
    have h1 : a ≠ Char.ofNat 0xE1 := by
      intro hcontra
      rw [hcontra] at ha
      exact absurd ha (by decide)
    have h2 : a ≠ Char.ofNat 0xE9 := by
      intro hcontra
      rw [hcontra] at ha
      exact absurd ha (by decide)
    simp only [pyNFKD, List.flatMap_cons] at *
    rw [nfkdChar, if_neg h1, if_neg h2]
    rw [ih (fun c hc => h c (List.mem_cons_of_mem a hc))]
    rfl

/-- Mapping a function that fixes every member is the identity. -/
theorem map_eq_self_of {α : Type} (f : α → α) (l : List α) (h : ∀ c ∈ l, f c = c) :
    l.map f = l := by
  induction l with
  | nil => rfl
  | cons a t ih =>
    rw [List.map_cons, h a (List.mem_cons_self _ _),
      ih (fun c hc => h c (List.mem_cons_of_mem a hc))]

/-- Packing a code point below the surrogate range round-trips. -/
theorem toNat_ofNat_of_lt {n : Nat} (h : n < 55296) : (Char.ofNat n).toNat = n := by
  have hv : n.isValidChar := Or.inl h
  rw [Char.ofNat, dif_pos hv]
  simp [Char.ofNatAux, Char.toNat, UInt32.toNat]

/-- A non-empty list of ASCII, caseless, punctuation-free,
whitespace-free characters with no adjacent hyphens and no hyphen at
either end passes through the slug pipeline unchanged. -/
theorem generate_slug_fixed (l : List Char) (hne : l ≠ [])
    (hascii : ∀ c ∈ l, c.toNat ≤ 127)
    (hupper : ∀ c ∈ l, ¬ (65 ≤ c.toNat ∧ c.toNat ≤ 90))
    (hpunct : ∀ c ∈ l, isSlugRemovedPunct c = false)
    (hws : ∀ c ∈ l, isPyWhitespace c = false)
    (hnoadj : NoTwoHyphens l)
    (hhead : l.head? ≠ some '-')
    (hlast : l.getLast? ≠ some '-') :
    generate_slug (String.mk l) false = String.mk l := by
  have hdata : (String.mk l).data = l := rfl
  have h1 : pyNFKD l = l := pyNFKD_ascii l hascii
  have h2 : asciiFilter l = l := by
    rw [asciiFilter, List.filter_eq_self]
    intro c hc
    simpa using hascii c hc
  have h3 : l.map pyCasefoldChar = l := by
    apply map_eq_self_of
    intro c hc
    rw [pyCasefoldChar, if_neg (hupper c hc)]
  have h4 : l.filter (fun c => !(isSlugRemovedPunct c)) = l := by
    rw [List.filter_eq_self]
    intro c hc
    simp [hpunct c hc]
  have h5 : collapseRuns isPyWhitespace '-' l false = l :=
    collapseRuns_eq_self_of_no_p isPyWhitespace '-' l hws false
  have h6 : collapseRuns (fun c => c = '-') '-' l false = l :=
    collapseRuns_hyphen_eq_self l hnoadj false (by intro h; cases h)
  have h7 : stripList (fun c => c = '-') l = l := by
    apply stripList_eq_self
    · intro c hc
      have hcn : c ≠ '-' := by
        intro hcontra
        rw [hcontra] at hc
        exact hhead hc
      simpa using hcn
    · intro c hc
      have hcn : c ≠ '-' := by
        intro hcontra
        rw [hcontra] at hc
        exact hlast hc
      simpa using hcn
  show (if stripList (fun c => c = '-')
      (collapseRuns (fun c => c = '-') '-'
        (collapseRuns isPyWhitespace '-'
          (((asciiFilter (pyNFKD (String.mk l).data)).map pyCasefoldChar).filter
            (fun c => !(isSlugRemovedPunct c))) false) false) = [] then "untitled"
    else String.mk (stripList (fun c => c = '-')
      (collapseRuns (fun c => c = '-') '-'
        (collapseRuns isPyWhitespace '-'
          (((asciiFilter (pyNFKD (String.mk l).data)).map pyCasefoldChar).filter
            (fun c => !(isSlugRemovedPunct c))) false) false))) = String.mk l
  rw [hdata, h1, h2, h3, h4, h5, h6, h7, if_neg hne]

/-- The output of the slug pipeline (before the "untitled" fallback)
consists of ASCII, caseless, punctuation-free, whitespace-free characters
with no adjacent hyphens and no hyphen at either end. -/
theorem slug_chain_props (l0 : List Char) :
    (∀ c ∈ stripList (fun c => c = '-')
        (collapseRuns (fun c => c = '-') '-'
          (collapseRuns isPyWhitespace '-'
            (((asciiFilter (pyNFKD l0)).map pyCasefoldChar).filter
              (fun c => !(isSlugRemovedPunct c))) false) false),
      c.toNat ≤ 127 ∧ ¬ (65 ≤ c.toNat ∧ c.toNat ≤ 90) ∧
        isSlugRemovedPunct c = false ∧ isPyWhitespace c = false) ∧
    NoTwoHyphens (stripList (fun c => c = '-')
        (collapseRuns (fun c => c = '-') '-'
          (collapseRuns isPyWhitespace '-'
            (((asciiFilter (pyNFKD l0)).map pyCasefoldChar).filter
              (fun c => !(isSlugRemovedPunct c))) false) false)) ∧
    (stripList (fun c => c = '-')
        (collapseRuns (fun c => c = '-') '-'
          (collapseRuns isPyWhitespace '-'
            (((asciiFilter (pyNFKD l0)).map pyCasefoldChar).filter
              (fun c => !(isSlugRemovedPunct c))) false) false)).head? ≠ some '-' ∧
    (stripList (fun c => c = '-')
        (collapseRuns (fun c => c = '-') '-'
          (collapseRuns isPyWhitespace '-'
            (((asciiFilter (pyNFKD l0)).map pyCasefoldChar).filter
              (fun c => !(isSlugRemovedPunct c))) false) false)).getLast? ≠ some '-' := by
  set l3 := ((asciiFilter (pyNFKD l0)).map pyCasefoldChar).filter
    (fun c => !(isSlugRemovedPunct c)) with hl3
  set l4 := collapseRuns isPyWhitespace '-' l3 false with hl4
  set l5 := collapseRuns (fun c => c = '-') '-' l4 false with hl5
  set u := stripList (fun c => c = '-') l5 with hu
  have hb3 : ∀ c ∈ l3, c.toNat ≤ 127 ∧ ¬ (65 ≤ c.toNat ∧ c.toNat ≤ 90) ∧
      isSlugRemovedPunct c = false := by
    intro c hc
    rw [hl3, List.mem_filter] at hc
    rcases hc with ⟨hcm, hcp⟩
    rcases List.mem_map.mp hcm with ⟨d, hd, hdc⟩
    have hda : d.toNat ≤ 127 := by
      rw [asciiFilter, List.mem_filter] at hd
      simpa using hd.2
    refine ⟨?_, ?_, by simpa using hcp⟩
    · rw [← hdc, pyCasefoldChar]
      split
      · next hdu =>
        rw [toNat_ofNat_of_lt (by omega)]
        omega
      · exact hda
    · rw [← hdc, pyCasefoldChar]
      split
      · next hdu =>
        rw [toNat_ofNat_of_lt (by omega)]
        omega
      · next hdu => simpa using hdu
  have hb4 : ∀ c ∈ l4, c.toNat ≤ 127 ∧ ¬ (65 ≤ c.toNat ∧ c.toNat ≤ 90) ∧
      isSlugRemovedPunct c = false ∧ isPyWhitespace c = false := by
    intro c hc
    rcases mem_collapseRuns isPyWhitespace '-' l3 false c (hl4 ▸ hc) with ⟨hm, hws⟩ | hr
    · exact ⟨(hb3 c hm).1, (hb3 c hm).2.1, (hb3 c hm).2.2, hws⟩
    · subst hr
      exact ⟨by decide, by decide, by decide, by decide⟩
  have hb5 : ∀ c ∈ l5, c.toNat ≤ 127 ∧ ¬ (65 ≤ c.toNat ∧ c.toNat ≤ 90) ∧
      isSlugRemovedPunct c = false ∧ isPyWhitespace c = false := by
    intro c hc
    rcases mem_collapseRuns (fun c => c = '-') '-' l4 false c (hl5 ▸ hc) with ⟨hm, _⟩ | hr
    · exact hb4 c hm
    · subst hr
      exact ⟨by decide, by decide, by decide, by decide⟩
  refine ⟨?_, ?_, ?_, ?_⟩
  · intro c hc
    exact hb5 c (mem_stripList _ _ _ hc)
  · exact noTwoHyphens_stripList l5 ((collapseRuns_hyphen_output l4).1 false)
  · intro hcontra
    have := head?_stripList (fun c => c = '-') l5 '-' hcontra
    simp at this
  · intro hcontra
    have := getLast?_stripList (fun c => c = '-') l5 '-' hcontra
    simp at this

/-- C9 (counterexample): with `preserve_unicode = true`, slugging the
title "a?" followed by the combining acute accent U+0301 yields the two
code points "a" U+0301 (the "?" separating them is removed after
normalization), but slugging that output again lets NFKC compose the now
adjacent pair into U+00E1 — the function is not idempotent for
`preserve_unicode = true`. -/
theorem slug_not_idempotent_with_unicode :
    generate_slug (generate_slug (String.mk ['a', '?', Char.ofNat 0x301]) true) true ≠
      generate_slug (String.mk ['a', '?', Char.ofNat 0x301]) true := by
  decide

/-- C9 (amended): `generate_slug` is idempotent for
`preserve_unicode = false`: for every string the slug of the slug equals
the slug (including the blank-input case, where both sides are
"untitled").  For `preserve_unicode = true` idempotence fails (see the
counterexample): removing punctuation can make a base letter and a
combining mark adjacent, which the second NFKC pass composes. -/
theorem generate_slug_idempotent_ascii :
    (∀ t : String,
      generate_slug (generate_slug t false) false = generate_slug t false) ∧
    generate_slug "" false = "untitled" := by
  constructor
  · intro t
    obtain ⟨hp, hn, hh, hl⟩ := slug_chain_props t.data
    have hgen : generate_slug t false =
        if stripList (fun c => c = '-')
            (collapseRuns (fun c => c = '-') '-'
              (collapseRuns isPyWhitespace '-'
                (((asciiFilter (pyNFKD t.data)).map pyCasefoldChar).filter
                  (fun c => !(isSlugRemovedPunct c))) false) false) = [] then "untitled"
        else String.mk (stripList (fun c => c = '-')
            (collapseRuns (fun c => c = '-') '-'
              (collapseRuns isPyWhitespace '-'
                (((asciiFilter (pyNFKD t.data)).map pyCasefoldChar).filter
                  (fun c => !(isSlugRemovedPunct c))) false) false)) := rfl
    rw [hgen]
    by_cases h0 : stripList (fun c => c = '-')
        (collapseRuns (fun c => c = '-') '-'
          (collapseRuns isPyWhitespace '-'
            (((asciiFilter (pyNFKD t.data)).map pyCasefoldChar).filter
              (fun c => !(isSlugRemovedPunct c))) false) false) = []
    · rw [if_pos h0]
      rfl
    · rw [if_neg h0]
      exact generate_slug_fixed _ h0 (fun c hc => (hp c hc).1)
        (fun c hc => (hp c hc).2.1) (fun c hc => (hp c hc).2.2.1)
        (fun c hc => (hp c hc).2.2.2) hn hh hl
  · rfl

/-- Rendering the digits of a number and reading them back is the
identity, and the rendering is never empty. -/
theorem natToStrAux_spec :
    ∀ (fuel n : Nat), n < fuel →
      digitsToNat (natToStrAux fuel n) = n ∧ natToStrAux fuel n ≠ [] := by
  intro fuel
  induction fuel with
  | zero => intro n h; omega
  | succ fuel ih =>
    intro n h
    by_cases h10 : n < 10
    · constructor
      · simp only [natToStrAux, h10, if_true]
        simp only [digitsToNat, List.foldl_cons, List.foldl_nil]
        rw [toNat_ofNat_of_lt (by omega)]
        omega
      · simp [natToStrAux, h10]
    · have hrec := ih (n / 10) (by omega)
      constructor
      · simp only [natToStrAux, h10, if_false]
        simp only [digitsToNat, List.foldl_append, List.foldl_cons, List.foldl_nil]
        rw [toNat_ofNat_of_lt (by omega)]
        have hr := hrec.1
        simp only [digitsToNat] at hr
        rw [hr]
        omega
      · simp [natToStrAux, h10]

/-- Decimal rendering is injective. -/
theorem natToStr_inj {m n : Nat} (h : natToStr m = natToStr n) : m = n := by
  have hm := (natToStrAux_spec (m + 1) m (by omega)).1
  have hn := (natToStrAux_spec (n + 1) n (by omega)).1
  have hd : natToStrAux (m + 1) m = natToStrAux (n + 1) n := by
    have := congrArg String.data h
    simpa [natToStr] using this
  rw [hd, hn] at hm
  omega

/-- String concatenation concatenates the character lists. -/
theorem string_append_data (s t : String) : (s ++ t).data = s.data ++ t.data :=
  rfl

/-- For a fixed base, the candidate slugs of distinct counters are
distinct strings. -/
theorem link_candidate_inj (base : String) :
    ∀ j k, link_candidate base j = link_candidate base k → j = k := by
  have hlen : ∀ j, j ≠ 0 →
      (link_candidate base j).data.length =
        base.data.length + 1 + (natToStr j).data.length := by
    intro j hj
    simp only [link_candidate, if_neg hj]
    rw [string_append_data, string_append_data]
    simp
    omega
  intro j k h
  by_cases hj : j = 0 <;> by_cases hk : k = 0
  · omega
  · exfalso
    have h1 := hlen k hk
    rw [← h, link_candidate, if_pos hj] at h1
    have hne := (natToStrAux_spec (k + 1) k (by omega)).2
    have hlp : (natToStr k).data.length ≠ 0 := by
      simp only [natToStr]
      intro hc
      exact hne (List.length_eq_zero.mp hc)
    omega
  · exfalso
    have h1 := hlen j hj
    rw [h, link_candidate, if_pos hk] at h1
    have hne := (natToStrAux_spec (j + 1) j (by omega)).2
    have hlp : (natToStr j).data.length ≠ 0 := by
      simp only [natToStr]
      intro hc
      exact hne (List.length_eq_zero.mp hc)
    omega
  · simp only [link_candidate, if_neg hj, if_neg hk] at h
    have hdata := congrArg String.data h
    rw [string_append_data, string_append_data, string_append_data,
      string_append_data] at hdata
    rw [List.append_assoc, List.append_assoc] at hdata
    have h2 := List.append_cancel_left (List.append_cancel_left hdata)
    exact natToStr_inj (congrArg String.mk h2)

/-- Specification of the probing loop: the result is the candidate of the
final counter, the counter only advances, every skipped candidate was
used, and the result is unused unless the fuel ran out. -/
theorem probe_link_spec (used : List String) (base : String) :
    ∀ (fuel count : Nat),
      (probe_link used base fuel count).1 =
        link_candidate base (probe_link used base fuel count).2 ∧
      count ≤ (probe_link used base fuel count).2 ∧
      (∀ j, count ≤ j → j < (probe_link used base fuel count).2 →
        used.contains (link_candidate base j) = true) ∧
      (used.contains (link_candidate base (probe_link used base fuel count).2) = false ∨
        (probe_link used base fuel count).2 = count + fuel) := by
  intro fuel
  induction fuel with
  | zero =>
    intro count
    refine ⟨rfl, Nat.le_refl _, ?_, Or.inr rfl⟩
    intro j h1 h2
    have hp : (probe_link used base 0 count).2 = count := rfl
    omega
  | succ fuel ih =>
    intro count
    by_cases hc : used.contains (link_candidate base count) = true
    · have heq : probe_link used base (fuel + 1) count =
          probe_link used base fuel (count + 1) := by
        simp only [probe_link]
        rw [if_pos hc]
      rw [heq]
      rcases ih (count + 1) with ⟨i1, i2, i3, i4⟩
      refine ⟨i1, by omega, ?_, ?_⟩
      · intro j h1 h2
        rcases Nat.eq_or_lt_of_le h1 with heqj | hlt
        · rw [← heqj]; exact hc
        · exact i3 j (by omega) h2
      · rcases i4 with h | h
        · exact Or.inl h
        · exact Or.inr (by omega)
    · have heq : probe_link used base (fuel + 1) count =
          (link_candidate base count, count) := by
        simp only [probe_link]
        rw [if_neg hc]
      rw [heq]
      refine ⟨rfl, Nat.le_refl _, ?_, Or.inl (by simpa using hc)⟩
      intro j h1 h2
      simp only at h2
      omega

/-- With fuel `used.length + 1` the probing loop always finds an unused
candidate: were every probed candidate used, the candidates — pairwise
distinct by `link_candidate_inj` — would outnumber `used`. -/
theorem probe_link_free (used : List String) (base : String) (count : Nat) :
    used.contains ((probe_link used base (used.length + 1) count).1) = false := by
  rcases probe_link_spec used base (used.length + 1) count with ⟨h1, h2, h3, h4⟩
  rcases h4 with h | hfull
  · rw [h1]; exact h
  · by_cases hlastc :
        used.contains
          (link_candidate base (probe_link used base (used.length + 1) count).2) = true
    · exfalso
      have hall : ∀ j, count ≤ j → j ≤ count + used.length + 1 →
          link_candidate base j ∈ used := by
        intro j hj1 hj2
        rcases Nat.eq_or_lt_of_le hj2 with heqj | hltj
        · have hj : j = (probe_link used base (used.length + 1) count).2 := by omega
          rw [hj]
          exact List.elem_iff.mp hlastc
        · exact List.elem_iff.mp (h3 j hj1 (by omega))
      have hcard : (Finset.Icc count (count + used.length + 1)).card ≤
          used.toFinset.card := by
        apply Finset.card_le_card_of_injOn (fun j => link_candidate base j)
        · intro j hj
          rw [Finset.mem_Icc] at hj
          rw [List.mem_toFinset]
          exact hall j hj.1 hj.2
        · intro x _ y _ hxy
          exact link_candidate_inj base x y hxy
      have h1c : (Finset.Icc count (count + used.length + 1)).card =
          used.length + 2 := by
        rw [Nat.card_Icc]
        omega
      have h2c := List.toFinset_card_le used
      omega
    · rw [h1]
      simpa using hlastc

/-- Lookup after assignment in the dict model. -/
theorem dict_get_set (l : List (String × Nat)) (k : String) (v : Nat) (k' : String) :
    dict_get (dict_set l k v) k' = if k' = k then some v else dict_get l k' := by
  simp only [dict_get, dict_set, List.reverse_append, List.reverse_cons,
    List.reverse_nil, List.nil_append, List.singleton_append, List.find?_cons]
  by_cases hk : k' = k
  · subst hk
    simp
  · have hk' : ¬ (k = k') := fun hc => hk hc.symm
    simp [hk, hk']

/-- Containment is preserved by appending on the right. -/
theorem contains_append_left (l l2 : List String) (x : String)
    (h : l.contains x = true) : (l ++ l2).contains x = true := by
  rw [List.contains, List.elem_iff] at *
  exact List.mem_append_left l2 h

/-- One entry-loop step: it emits exactly one slug — the first unused
candidate for the header's base slug — appends the rendered entry line,
preserves the counter invariant (every candidate below a base's counter
is already used) and keeps the used list duplicate-free. -/
theorem toc_body_step_spec (cfg : TocConfig) (st : SlugState) (h : String)
    (hinv : ∀ b j, j < (dict_get st.ctrs b).getD 0 →
      st.used.contains (link_candidate b j) = true)
    (hnd : st.used.Nodup) :
    ∃ slug,
      (toc_body_step cfg st h).used = st.used ++ [slug] ∧
      (toc_body_step cfg st h).entries = st.entries ++ [render_entry cfg h slug] ∧
      is_least_free_slug (base_slug_of cfg h) st.used slug ∧
      (∀ b j, j < (dict_get (toc_body_step cfg st h).ctrs b).getD 0 →
        (toc_body_step cfg st h).used.contains (link_candidate b j) = true) ∧
      (toc_body_step cfg st h).used.Nodup := by
  have hspec := probe_link_spec st.used (base_slug_of cfg h) (st.used.length + 1)
    ((dict_get st.ctrs (base_slug_of cfg h)).getD 0)
  rcases hspec with ⟨p1, p2, p3, _⟩
  have pfree := probe_link_free st.used (base_slug_of cfg h)
    ((dict_get st.ctrs (base_slug_of cfg h)).getD 0)
  refine ⟨(probe_link st.used (base_slug_of cfg h) (st.used.length + 1)
    ((dict_get st.ctrs (base_slug_of cfg h)).getD 0)).1, rfl, rfl, ?_, ?_, ?_⟩
  · refine ⟨(probe_link st.used (base_slug_of cfg h) (st.used.length + 1)
      ((dict_get st.ctrs (base_slug_of cfg h)).getD 0)).2, p1, ?_, ?_⟩
    · rw [← p1]
      exact pfree
    · intro j hj
      by_cases hj0 : j < (dict_get st.ctrs (base_slug_of cfg h)).getD 0
      · exact hinv (base_slug_of cfg h) j hj0
      · exact p3 j (by omega) hj
  · intro b j hj
    have hctrs : (toc_body_step cfg st h).ctrs =
        dict_set st.ctrs (base_slug_of cfg h)
          ((probe_link st.used (base_slug_of cfg h) (st.used.length + 1)
            ((dict_get st.ctrs (base_slug_of cfg h)).getD 0)).2 + 1) := rfl
    rw [hctrs, dict_get_set] at hj
    have hused : (toc_body_step cfg st h).used = st.used ++
        [(probe_link st.used (base_slug_of cfg h) (st.used.length + 1)
          ((dict_get st.ctrs (base_slug_of cfg h)).getD 0)).1] := rfl
    rw [hused]
    by_cases hb : b = base_slug_of cfg h
    · rw [if_pos hb] at hj
      simp only [Option.getD_some] at hj
      subst hb
      by_cases hj2 : j < (probe_link st.used (base_slug_of cfg h) (st.used.length + 1)
          ((dict_get st.ctrs (base_slug_of cfg h)).getD 0)).2
      · by_cases hj0 : j < (dict_get st.ctrs (base_slug_of cfg h)).getD 0
        · exact contains_append_left _ _ _ (hinv (base_slug_of cfg h) j hj0)
        · exact contains_append_left _ _ _ (p3 j (by omega) hj2)
      · have hjeq : j = (probe_link st.used (base_slug_of cfg h) (st.used.length + 1)
            ((dict_get st.ctrs (base_slug_of cfg h)).getD 0)).2 := by omega
        rw [List.contains, List.elem_iff]
        apply List.mem_append_right
        rw [hjeq, ← p1]
        exact List.mem_singleton.mpr rfl
    · rw [if_neg hb] at hj
      exact contains_append_left _ _ _ (hinv b j hj)
  · have hused : (toc_body_step cfg st h).used = st.used ++
        [(probe_link st.used (base_slug_of cfg h) (st.used.length + 1)
          ((dict_get st.ctrs (base_slug_of cfg h)).getD 0)).1] := rfl
    rw [hused]
    rw [List.nodup_append]
    refine ⟨hnd, List.nodup_singleton _, ?_⟩
    intro x hx hx2
    rw [List.mem_singleton] at hx2
    rw [hx2] at hx
    rw [← List.elem_iff] at hx
    rw [List.contains] at pfree
    rw [pfree] at hx
    cases hx

/-- The entry loop over a header list: it appends one slug per header (in
lockstep with the rendered lines), the whole used list stays
duplicate-free, and each header's slug is the first unused candidate of
its base slug against all previously emitted slugs. -/
theorem toc_body_fold_spec (cfg : TocConfig) :
    ∀ (hs : List String) (st : SlugState),
      (∀ b j, j < (dict_get st.ctrs b).getD 0 →
        st.used.contains (link_candidate b j) = true) →
      st.used.Nodup →
      ∃ newSlugs : List String,
        (toc_body_fold cfg st hs).used = st.used ++ newSlugs ∧
        (toc_body_fold cfg st hs).entries =
          st.entries ++ List.zipWith (render_entry cfg) hs newSlugs ∧
        newSlugs.length = hs.length ∧
        (toc_body_fold cfg st hs).used.Nodup ∧
        (∀ i h s, hs.get? i = some h → newSlugs.get? i = some s →
          is_least_free_slug (base_slug_of cfg h) (st.used ++ newSlugs.take i) s) := by
  intro hs
  induction hs with
  | nil =>
    intro st hinv hnd
    refine ⟨[], by simp [toc_body_fold], by simp [toc_body_fold], rfl,
      by simpa [toc_body_fold] using hnd, ?_⟩
    intro i h s h1 _
    simp at h1
  | cons h0 tl ih =>
    intro st hinv hnd
    obtain ⟨slug, s1, s2, s3, s4, s5⟩ := toc_body_step_spec cfg st h0 hinv hnd
    obtain ⟨ns, f1, f2, f3, f4, f5⟩ := ih (toc_body_step cfg st h0) s4 s5
    have hfold : toc_body_fold cfg st (h0 :: tl) =
        toc_body_fold cfg (toc_body_step cfg st h0) tl := rfl
    refine ⟨slug :: ns, ?_, ?_, ?_, ?_, ?_⟩
    · rw [hfold, f1, s1, List.append_assoc, List.singleton_append]
    · rw [hfold, f2, s2, List.append_assoc, List.singleton_append,
        List.zipWith_cons_cons]
    · simp [f3]
    · rw [hfold]
      exact f4
    · intro i h s hg hn
      cases i with
      | zero =>
        simp only [List.get?_cons_zero, Option.some.injEq] at hg hn
        rw [← hg, ← hn]
        simpa using s3
      | succ i' =>
        simp only [List.get?_cons_succ] at hg hn
        have hle := f5 i' h s hg hn
        rw [s1, List.append_assoc, List.singleton_append] at hle
        simpa [List.take_succ_cons] using hle

/-- C6 (counterexample): the cascading-collision example from the code's
own docstring.  The base slugs of `"## Header", "## Header", "## Header 1"`
are `header, header, header-1`; the emitted slugs are
`header, header-1, header-1-1`.  The third header is the FIRST occurrence
of the base slug `header-1`, yet its slug carries a suffix — refuting the
claim's "the first occurrence of a base slug gets no suffix". -/
theorem cascading_first_occurrence_gets_suffix :
    assigned_slugs {} ["## Header", "## Header", "## Header 1"] =
      ["header", "header-1", "header-1-1"] ∧
    ["## Header", "## Header", "## Header 1"].map (base_slug_of {}) =
      ["header", "header", "header-1"] ∧
    ("header-1-1" : String) ≠ "header-1" :=
  ⟨rfl, rfl, by decide⟩

/-- C6 (amended): for every header list and valid configuration the slugs
of the generated TOC are pairwise distinct (`Nodup`), the output frames
one rendered entry per header built from exactly these slugs, and each
header's slug is the FIRST unused candidate in the sequence base, base-1,
base-2, …: the bare base when it is still unused (in particular for a
first occurrence without cascading collision), and otherwise `base-N`
with `N` the lowest suffix — starting at 1 — whose candidate is unused
among the slugs already emitted.  Three `## Introduction` headers yield
`introduction, introduction-1, introduction-2` in that order. -/
theorem toc_slugs_unique_and_least_candidate :
    (∀ (headers : List String) (cfg cfgN : TocConfig),
      normalize_config cfg = Except.ok cfgN →
      validate_config cfgN = Except.ok () →
      (assigned_slugs cfgN headers).Nodup ∧
      generate_toc_entries headers cfg = Except.ok
        ([cfgN.start_marker ++ "\n", cfgN.header_text ++ "\n\n"] ++
          List.zipWith (render_entry cfgN) headers (assigned_slugs cfgN headers) ++
          [cfgN.end_marker ++ "\n"]) ∧
      (∀ i h s, headers.get? i = some h →
        (assigned_slugs cfgN headers).get? i = some s →
        is_least_free_slug (base_slug_of cfgN h)
          ((assigned_slugs cfgN headers).take i) s)) ∧
    generate_toc_entries ["## Introduction", "## Introduction", "## Introduction"] {} =
      Except.ok
        ["<!-- TOC -->\n", "## Table of Contents\n\n",
         "1. [Introduction](#introduction)\n",
         "1. [Introduction](#introduction-1)\n",
         "1. [Introduction](#introduction-2)\n",
         "<!-- /TOC -->\n"] := by
  constructor
  · intro headers cfg cfgN hnorm hval
    obtain ⟨ns, f1, f2, f3, f4, f5⟩ := toc_body_fold_spec cfgN headers {}
      (by intro b j hj; simp [dict_get] at hj) List.nodup_nil
    have hassigned : assigned_slugs cfgN headers = ns := by
      rw [assigned_slugs, f1]
      simp
    refine ⟨?_, ?_, ?_⟩
    · rw [hassigned]
      rw [assigned_slugs] at hassigned
      rw [← hassigned]
      exact f4
    · simp only [generate_toc_entries, hnorm, hval]
      rw [f2, hassigned]
      simp
    · intro i h s hg hs
      rw [hassigned] at hs
      have hl := f5 i h s hg hs
      rw [hassigned]
      simpa using hl
  · rfl

/-- Witness for C6's amended theorem: the Introduction headers under the
default configuration. -/
theorem toc_slugs_unique_and_least_candidate_witness :
    (normalize_config {} = Except.ok {} ∧ validate_config {} = Except.ok ()) ∧
    ((assigned_slugs {} ["## Introduction", "## Introduction", "## Introduction"]).Nodup ∧
      generate_toc_entries ["## Introduction", "## Introduction", "## Introduction"] {} =
        Except.ok
          ([({} : TocConfig).start_marker ++ "\n",
            ({} : TocConfig).header_text ++ "\n\n"] ++
            List.zipWith (render_entry {})
              ["## Introduction", "## Introduction", "## Introduction"]
              (assigned_slugs {} ["## Introduction", "## Introduction", "## Introduction"]) ++
            [({} : TocConfig).end_marker ++ "\n"]) ∧
      (∀ i h s,
        (["## Introduction", "## Introduction", "## Introduction"] : List String).get? i =
          some h →
        (assigned_slugs {} ["## Introduction", "## Introduction", "## Introduction"]).get? i =
          some s →
        is_least_free_slug (base_slug_of {} h)
          ((assigned_slugs {}
            ["## Introduction", "## Introduction", "## Introduction"]).take i) s)) :=
  ⟨⟨rfl, rfl⟩,
    toc_slugs_unique_and_least_candidate.1
      ["## Introduction", "## Introduction", "## Introduction"] {} {} rfl rfl⟩

end TocMd
